import Mathlib

/-!
# datavalidator

A shallow embedding of `datavalidator.go` and the properties of its
validation engine.

Conventions of the embedding:

* a Go `string` is a Lean `String` (a sequence of code points), so
  `len([]rune(v))` is `String.length`;
* a Go `int` is an `Int`; `strconv.Atoi` is the only place where the machine
  range is observable and it is modelled with `strconv.IntSize = 64`;
* a call that can panic returns `Except Panic α`;
* the values the package reaches through `reflect` are described by
  `GoValue`, which records exactly what the code observes of them: their
  kind, whether their type is `int` or `string` itself, the length and the
  element type of a collection, and the fields of a record;
* state reached through a pointer (`*ValidationErrors`) is passed in and
  returned;
* errors are values here, so the identity of an error built by `fmt.Errorf` is
  not represented; the two methods `Is`, which compare causes by identity,
  are therefore not embedded;
* the definitions of the namespace `Spec` are not code: they state, in the
  words of the specification, what the code is compared with.
-/

namespace datavalidator

deriving instance DecidableEq for Except

/-! ## Strings, `strings.Split`, `strconv.Atoi`, `%d` -/

/-- Split a list of characters at every occurrence of `sep`. -/
def splitOn (sep : Char) : List Char → List (List Char)
  | [] => [[]]
  | c :: cs =>
    if c = sep then [] :: splitOn sep cs
    else match splitOn sep cs with
      | [] => [[c]]
      | h :: t => (c :: h) :: t

/-- The function `strings.Split(s, sep)` for a one-character separator. The result is never
    empty: `Split "" sep = [""]`. -/
def Split (s : String) (sep : Char) : List String :=
  (splitOn sep s.data).map String.mk

/-- The value of a run of decimal digits, most significant first, continuing
    from `n`; `none` when a character is not a digit. -/
def parseDigits : List Char → Nat → Option Nat
  | [], n => some n
  | c :: cs, n =>
    if c.isDigit then parseDigits cs (n * 10 + (c.toNat - 48)) else none

/-- The bit size of `int` (`strconv.IntSize`). -/
def intSize : Nat := 64

/-- The function `strconv.Atoi`: an optional sign followed by at least one decimal digit,
    the value being in the range of `int`. `none` stands for any error. -/
def Atoi (s : String) : Option Int :=
  match s.data with
  | [] => none
  | c :: cs =>
    let neg := decide (c = '-')
    let ds := if c = '-' ∨ c = '+' then cs else c :: cs
    match ds with
    | [] => none
    | _ :: _ =>
      match parseDigits ds 0 with
      | none => none
      | some n =>
        if neg then
          if n ≤ 2 ^ (intSize - 1) then some (-(n : Int)) else none
        else
          if n < 2 ^ (intSize - 1) then some (n : Int) else none

/-- The verb `%d` applied to an `int`. -/
def fmtInt (i : Int) : String := toString i

/-- The verbs `%s` and `%d` applied to a slice: the elements separated by
    blanks, in brackets. -/
def fmtSlice (xs : List String) : String := "[" ++ " ".intercalate xs ++ "]"

/-! ## Errors -/

/-- The `error` values of the package: its seven sentinels and the descriptive
    errors built with `fmt.Errorf`. -/
inductive GoErr where
  | ErrNotStruct
  | ErrEmptyValidator
  | ErrInvalidValidatorSyntax
  | ErrInvalidValidatorType
  | ErrValidateForUnexportedFields
  | ErrUnsupportedType
  | ErrUnsupportedValidatorType
  | Errorf (msg : String)
  deriving DecidableEq, Repr

/-- The text of an error (`err.Error()`). -/
def GoErr.Error : GoErr → String
  | .ErrNotStruct => "wrong argument given, should be a struct"
  | .ErrEmptyValidator => "validator tag is empty"
  | .ErrInvalidValidatorSyntax => "invalid validator syntax"
  | .ErrInvalidValidatorType => "invalid validator type"
  | .ErrValidateForUnexportedFields => "validation for unexported field is not allowed"
  | .ErrUnsupportedType => "field type is unsupported"
  | .ErrUnsupportedValidatorType => "validator type is unsupported"
  | .Errorf msg => msg

/-- The ways in which the package can panic. -/
inductive Panic where
  /-- Call of `reflect.Value.Type` on the zero `reflect.Value`. -/
  | TypeOnZeroValue
  /-- Call of `reflect.Value.Interface` on a value obtained from an unexported
      field. -/
  | InterfaceOnReadOnly
  /-- A failed type assertion `x.(T)`. -/
  | TypeAssertion
  deriving DecidableEq, Repr

structure ValidationError where
  Name : String
  Err : GoErr
  deriving DecidableEq, Repr

def ValidationError.Error (e : ValidationError) : String :=
  "Field " ++ e.Name ++ ", error: " ++ e.Err.Error

abbrev ValidationErrors := List ValidationError

def ValidationErrors.AddCustomError (errs : ValidationErrors)
    (errors : List ValidationError) : ValidationErrors :=
  errs ++ errors

def ValidationErrors.AddError (errs : ValidationErrors) (name : String) :
    List GoErr → ValidationErrors
  | [] => errs
  | e :: rest =>
    ValidationErrors.AddError (ValidationErrors.AddCustomError errs [⟨name, e⟩]) name rest

/-- The loop of `ValidationErrors.Error`, at index `i` with `es` built so
    far. -/
def ValidationErrors.ErrorLoop : List ValidationError → Nat → String → String
  | [], _, es => es
  | err :: rest, i, es =>
    ValidationErrors.ErrorLoop rest (i + 1)
      ((if i > 0 then es ++ "\n" else es) ++ err.Error)

def ValidationErrors.Error (errs : ValidationErrors) : String :=
  ValidationErrors.ErrorLoop errs 0 ""

/-! ## Kinds and reflected values -/

/-- The kinds of `reflect.Kind`. -/
inductive Kind where
  | invalid | bool | int | int8 | int16 | int32 | int64
  | uint | uint8 | uint16 | uint32 | uint64 | uintptr
  | float32 | float64 | complex64 | complex128
  | array | chan | func | interface | map | pointer | slice | string | struct
  | unsafePointer
  deriving DecidableEq, Repr

/-- The types other than `int`, `string`, the record types and the collection
    types. `definedInt` and `definedString` are the defined types whose
    underlying type is `int` or `string` (`type Age int`): their kind is
    `Int` or `String`, but a value of them is not an `int` or a `string`. -/
inductive OtherType where
  | definedInt | definedString
  | bool | int8 | int16 | int32 | int64
  | uint | uint8 | uint16 | uint32 | uint64 | uintptr
  | float32 | float64 | complex64 | complex128
  | chan | func | interface | map | pointer | unsafePointer
  deriving DecidableEq, Repr

def OtherType.Kind : OtherType → Kind
  | .definedInt => .int
  | .definedString => .string
  | .bool => .bool
  | .int8 => .int8
  | .int16 => .int16
  | .int32 => .int32
  | .int64 => .int64
  | .uint => .uint
  | .uint8 => .uint8
  | .uint16 => .uint16
  | .uint32 => .uint32
  | .uint64 => .uint64
  | .uintptr => .uintptr
  | .float32 => .float32
  | .float64 => .float64
  | .complex64 => .complex64
  | .complex128 => .complex128
  | .chan => .chan
  | .func => .func
  | .interface => .interface
  | .map => .map
  | .pointer => .pointer
  | .unsafePointer => .unsafePointer

/-- The element types of a collection other than `int` and `string`. The
    code only asks for the kind of such an element type. -/
inductive ElemType where
  | other (t : OtherType)
  | struct
  | array
  | slice
  deriving DecidableEq, Repr

def ElemType.Kind : ElemType → Kind
  | .other t => t.Kind
  | .struct => .struct
  | .array => .array
  | .slice => .slice

/-- Fixed-size (`[n]T`) or growable (`[]T`) sequence. -/
inductive SeqKind where
  | array
  | slice
  deriving DecidableEq, Repr

def SeqKind.Kind : SeqKind → Kind
  | .array => .array
  | .slice => .slice

/-- The elements of a collection: of type `int`, of type `string`, or `len`
    elements of another type. -/
inductive Elems where
  | ints (xs : List Int)
  | strings (xs : List String)
  | others (t : ElemType) (len : Nat)
  deriving DecidableEq, Repr

/-- What `reflect.StructField` says of a field. `Tag` is the result of
    `Tag.Lookup(validateTag)`: `none` when the field has no `validate` key. -/
structure StructField where
  Name : String
  PkgPath : String
  Tag : Option String
  Anonymous : Bool
  deriving DecidableEq, Repr

/-- The method `StructField.IsExported`. -/
def StructField.IsExported (f : StructField) : Bool := decide (f.PkgPath = "")

/-- The Go values the validator can be handed, as far as it observes them. -/
inductive GoValue where
  | int (i : Int)
  | string (s : String)
  | other (t : OtherType)
  | seq (k : SeqKind) (e : Elems)
  | struct (fields : List (StructField × GoValue))
  deriving Repr

/-- The kind `v.Type().Kind()` of a value. -/
def GoValue.Kind : GoValue → Kind
  | .int _ => .int
  | .string _ => .string
  | .other t => t.Kind
  | .seq k _ => k.Kind
  | .struct _ => .struct

/-- What a type assertion sees of the result of `reflect.Value.Interface`: an
    `int`, a `string`, or a value of another dynamic type. -/
inductive DynValue where
  | int (i : Int)
  | string (s : String)
  | other
  deriving DecidableEq, Repr

/-- The dynamic value of a scalar. -/
def GoValue.Dyn : GoValue → DynValue
  | .int i => .int i
  | .string s => .string s
  | _ => .other

/-- The length `v.Len()` of a collection. -/
def Elems.Len : Elems → Nat
  | .ints xs => xs.length
  | .strings xs => xs.length
  | .others _ len => len

/-- The kind `v.Index(0).Type().Kind()`: the kind of the element type. -/
def Elems.Kind : Elems → Kind
  | .ints _ => .int
  | .strings _ => .string
  | .others t _ => t.Kind

/-- The dynamic values of the elements, in order. -/
def Elems.Dyn : Elems → List DynValue
  | .ints xs => xs.map DynValue.int
  | .strings xs => xs.map DynValue.string
  | .others _ len => List.replicate len DynValue.other

/-- The read-only bits of a `reflect.Value`'s flag. -/
structure flag where
  StickyRO : Bool
  EmbedRO : Bool
  deriving DecidableEq, Repr

/-- The method `flag.ro`: is one of the read-only bits set. -/
def flag.ro (f : flag) : Bool := f.StickyRO || f.EmbedRO

/-- The flag of `v.Field(i)`: the sticky bit is inherited, the embedding bit is
    not, and an unexported field sets one of the two. -/
def flag.Field (f : flag) (s : StructField) : flag :=
  ⟨f.StickyRO || (!s.IsExported && !s.Anonymous), !s.IsExported && s.Anonymous⟩

/-- The flag of `v.Index(i)`. -/
def flag.Index (f : flag) : flag := ⟨f.ro, false⟩

/-- The method `reflect.Value.Interface`: panics on a value reached through an unexported
    field. -/
def Interface (f : flag) (v : DynValue) : Except Panic DynValue :=
  if f.ro then .error .InterfaceOnReadOnly else .ok v

/-- A `reflect.Value`: the zero Value, or a value with its flag. -/
inductive ReflectValue where
  | zero
  | valid (v : GoValue) (f : flag)
  deriving Repr

/-- An argument of type `any`: nil, a `reflect.Value`, or any other value. -/
inductive GoAny where
  | nil
  | reflectValue (rval : ReflectValue)
  | value (v : GoValue)
  deriving Repr

/-! ## The rule parser -/

/-- The dynamic contents of `checkType.Value` once a rule is parsed. -/
inductive AnyValue where
  | int (i : Int)
  | strings (xs : List String)
  | ints (xs : List Int)
  deriving DecidableEq, Repr

/-- A constraint rule. `Typ` is the field `Type` of the source. -/
structure checkType where
  Typ : String
  Value : AnyValue
  deriving DecidableEq, Repr

abbrev checkTypes := List checkType

/-- The loop of `Init` over the segments of an `in` clause of an integer
    field. -/
def Init.inints : List String → Option (List Int)
  | [] => some []
  | v :: rest =>
    match Atoi v with
    | none => none
    | some i =>
      match Init.inints rest with
      | none => none
      | some is => some (i :: is)

/-- The method `checkType.Init` on `checkType{Typ, sval}` (on entry `Value` holds the raw
    text of the clause): the parsed rule, or the error returned. -/
def checkType.Init (Typ : String) (sval : String) (t : Kind) : Except GoErr checkType :=
  if Typ = "len" then
    if t ≠ Kind.string then .error .ErrUnsupportedValidatorType
    else match Atoi sval with
      | none => .error .ErrInvalidValidatorSyntax
      | some val => .ok ⟨Typ, .int val⟩
  else if Typ = "min" ∨ Typ = "max" then
    match Atoi sval with
    | none => .error .ErrInvalidValidatorSyntax
    | some val => .ok ⟨Typ, .int val⟩
  else if Typ = "in" then
    let instrs := Split sval ','
    if sval = "" ∨ instrs.length = 0 then .error .ErrInvalidValidatorSyntax
    else if t = Kind.string then .ok ⟨Typ, .strings instrs⟩
    else match Init.inints instrs with
      | none => .error .ErrInvalidValidatorSyntax
      | some inints => .ok ⟨Typ, .ints inints⟩
  else .error .ErrInvalidValidatorType

/-- The loop of `ParseTag` over the clauses, `cts` being `*c.CheckTypes`. -/
def ParseTag.loop (vt : Kind) : List String → checkTypes → Except GoErr checkTypes
  | [], cts => .ok cts
  | tag :: rest, cts =>
    let tp := Split tag ':'
    match tp with
    | tp0 :: tp1 :: _ =>
      if tp0 = "" ∨ tp1 = "" then .error .ErrInvalidValidatorSyntax
      else match checkType.Init tp0 tp1 vt with
        | .error err => .error err
        | .ok ct => ParseTag.loop vt rest (cts ++ [ct])
    | _ => .error .ErrInvalidValidatorSyntax

/-- The method `fieldCheck.ParseTag`: the rule set stored in `c.CheckTypes`, or the error
    returned. -/
def ParseTag (t : String) (vt : Kind) : Except GoErr checkTypes :=
  if t = "" then .error .ErrEmptyValidator
  else ParseTag.loop vt (Split t ';') []

/-! ## The evaluator -/

def ValidateRange (v : Int) (cmin : Int) (cmax : Int) : Bool :=
  decide (v ≥ cmin) && decide (v ≤ cmax)

/-- The rune count `len([]rune(v))`. -/
def runeCount (v : String) : Int := (v.length : Int)

def ValidateLength (v : String) (c : Int) : Bool :=
  let len := runeCount v
  decide (len = c)

def ValidateLengthRangeMin (v : String) (cmin : Int) : Bool :=
  let len := runeCount v
  ValidateRange len cmin len

def ValidateLengthRangeMax (v : String) (cmax : Int) : Bool :=
  let len := runeCount v
  ValidateRange len len cmax

def ValidateIn {T : Type} [DecidableEq T] (v : T) : List T → Bool
  | [] => false
  | x :: ins => if v = x then true else ValidateIn v ins

/-- The body of the loop of `CheckString` for one rule: the cause it
    produces, if any. A rule whose `Value` has not the asserted dynamic type
    panics. -/
def CheckString.rule (s : String) (ct : checkType) : Except Panic (Option GoErr) :=
  if ct.Typ = "len" then
    match ct.Value with
    | .int c =>
      if ValidateLength s c then .ok none
      else .ok (some (.Errorf ("string length is not match - \'" ++ fmtInt c ++ "\'")))
    | _ => .error .TypeAssertion
  else if ct.Typ = "min" then
    match ct.Value with
    | .int c =>
      if ValidateLengthRangeMin s c then .ok none
      else .ok (some (.Errorf ("string length is less than \'" ++ fmtInt c ++ "\'")))
    | _ => .error .TypeAssertion
  else if ct.Typ = "max" then
    match ct.Value with
    | .int c =>
      if ValidateLengthRangeMax s c then .ok none
      else .ok (some (.Errorf ("string length is bigger than \'" ++ fmtInt c ++ "\'")))
    | _ => .error .TypeAssertion
  else if ct.Typ = "in" then
    match ct.Value with
    | .strings ins =>
      if ValidateIn s ins then .ok none
      else .ok (some (.Errorf ("string value is not contains in " ++ fmtSlice ins)))
    | _ => .error .TypeAssertion
  else .ok none

/-- The loop of `CheckString`, `errs` being the causes collected so far. -/
def CheckString.loop (s : String) : checkTypes → List GoErr → Except Panic (List GoErr)
  | [], errs => .ok errs
  | ct :: rest, errs =>
    match CheckString.rule s ct with
    | .error p => .error p
    | .ok none => CheckString.loop s rest errs
    | .ok (some err) => CheckString.loop s rest (errs ++ [err])

def CheckString (CheckTypes : checkTypes) (s : String) : Except Panic (List GoErr) :=
  CheckString.loop s CheckTypes []

/-- The body of the loop of `CheckInt` for one rule. -/
def CheckInt.rule (i : Int) (ct : checkType) : Except Panic (Option GoErr) :=
  if ct.Typ = "min" then
    match ct.Value with
    | .int ci =>
      if ValidateRange i ci i then .ok none
      else .ok (some (.Errorf ("value " ++ fmtInt i ++ " is less than " ++ fmtInt ci)))
    | _ => .error .TypeAssertion
  else if ct.Typ = "max" then
    match ct.Value with
    | .int ci =>
      if ValidateRange i i ci then .ok none
      else .ok (some (.Errorf ("value " ++ fmtInt i ++ " is bigger than " ++ fmtInt ci)))
    | _ => .error .TypeAssertion
  else if ct.Typ = "in" then
    match ct.Value with
    | .ints ins =>
      if ValidateIn i ins then .ok none
      else .ok (some (.Errorf ("value " ++ fmtInt i ++ " is not contains in "
        ++ fmtSlice (ins.map fmtInt))))
    | _ => .error .TypeAssertion
  else .ok none

/-- The loop of `CheckInt`. -/
def CheckInt.loop (i : Int) : checkTypes → List GoErr → Except Panic (List GoErr)
  | [], errs => .ok errs
  | ct :: rest, errs =>
    match CheckInt.rule i ct with
    | .error p => .error p
    | .ok none => CheckInt.loop i rest errs
    | .ok (some err) => CheckInt.loop i rest (errs ++ [err])

def CheckInt (CheckTypes : checkTypes) (i : Int) : Except Panic (List GoErr) :=
  CheckInt.loop i CheckTypes []

/-- The method `fieldCheck.Check`: `v.(int)` and `v.(string)` panic on a value of another
    dynamic type; for a kind other than `Int` and `String` no cause. -/
def Check (CheckTypes : checkTypes) (v : DynValue) (t : Kind) : Except Panic (List GoErr) :=
  match t with
  | .int =>
    match v with
    | .int i => CheckInt CheckTypes i
    | _ => .error .TypeAssertion
  | .string =>
    match v with
    | .string s => CheckString CheckTypes s
    | _ => .error .TypeAssertion
  | _ => .ok []

/-! ## The field visitor and the record validator -/

/-- The name `NewFieldCheck` gives the field check of field `s`. -/
def NewFieldCheck.Name (ParentName : String) (s : StructField) : String :=
  (if ParentName ≠ "" then ParentName ++ "." else "") ++ s.Name

/-- The kind `kt` that `EvalCheck` parses and evaluates with: the kind of the
    field, or of the elements of a collection that is not empty; `none` for an
    empty collection, where `EvalCheck` returns. -/
def EvalCheck.kt : GoValue → Option Kind
  | .seq _ e => if e.Len = 0 then none else some e.Kind
  | v => some v.Kind

/-- The loop of `EvalCheck` over the elements of a collection, from index `i`
    on. -/
def EvalCheck.elems (Name : String) (CheckTypes : checkTypes) (kt : Kind) (f : flag) :
    List DynValue → Nat → ValidationErrors → Except Panic ValidationErrors
  | [], _, Errors => .ok Errors
  | x :: rest, i, Errors =>
    match Interface f.Index x with
    | .error p => .error p
    | .ok v =>
      match Check CheckTypes v kt with
      | .error p => .error p
      | .ok errs =>
        EvalCheck.elems Name CheckTypes kt f rest (i + 1)
          (if errs.length > 0 then
            Errors.AddError (Name ++ "[" ++ toString i ++ "]") errs
          else Errors)

/-- The last `switch` of `EvalCheck`: the evaluation of the parsed rules. -/
def EvalCheck.eval (Name : String) (CheckTypes : checkTypes) (kt : Kind) (f : flag)
    (RefValue : GoValue) (Errors : ValidationErrors) : Except Panic ValidationErrors :=
  match RefValue with
  | .seq _ e => EvalCheck.elems Name CheckTypes kt f e.Dyn 0 Errors
  | .struct _ => .ok Errors
  | v =>
    if v.Kind = Kind.int ∨ v.Kind = Kind.string then
      match Interface f v.Dyn with
      | .error p => .error p
      | .ok x =>
        match Check CheckTypes x kt with
        | .error p => .error p
        | .ok errs => .ok (if errs.length > 0 then Errors.AddError Name errs else Errors)
    else .ok Errors

/-- The method `EvalCheck` for a field that is not a nested record (from the lookup of
    the annotation on). `Errors` is `*c.Validator.Errors`; the result is its
    contents on return. -/
def EvalCheck.field (Name : String) (RefStruct : StructField) (f : flag)
    (RefValue : GoValue) (Errors : ValidationErrors) : Except Panic ValidationErrors :=
  match RefStruct.Tag with
  | none => .ok Errors
  | some vtag =>
    if !RefStruct.IsExported then
      .ok (Errors.AddCustomError [⟨Name, .ErrValidateForUnexportedFields⟩])
    else
      match EvalCheck.kt RefValue with
      | none => .ok Errors
      | some kt =>
        if kt = Kind.int ∨ kt = Kind.string then
          match ParseTag vtag kt with
          | .error err => .ok (Errors.AddCustomError [⟨Name, err⟩])
          | .ok CheckTypes => EvalCheck.eval Name CheckTypes kt f RefValue Errors
        else .ok (Errors.AddCustomError [⟨Name, .ErrUnsupportedType⟩])

mutual
/-- The method `fieldCheck.EvalCheck` for the field check
    `{Name, RefStruct, RefValue (with flag f)}`, `Errors` being
    `*c.Validator.Errors`. A nested record is validated by a validator of its
    own (`InitValidator(c.RefValue, c.Name).Execute()`), whose errors, when it
    returns some, are appended. -/
def EvalCheck (Name : String) (RefStruct : StructField) (f : flag)
    (RefValue : GoValue) (Errors : ValidationErrors) : Except Panic ValidationErrors :=
  match RefValue with
  | .struct fields =>
    match Execute.loop f Name fields [] with
    | .error p => .error p
    | .ok errs =>
      if errs.length > 0 then .ok (Errors.AddCustomError errs) else .ok Errors
  | .int i => EvalCheck.field Name RefStruct f (.int i) Errors
  | .string s => EvalCheck.field Name RefStruct f (.string s) Errors
  | .other t => EvalCheck.field Name RefStruct f (.other t) Errors
  | .seq k e => EvalCheck.field Name RefStruct f (.seq k e) Errors
/-- The loop of `Execute` over the fields of a record reached with flag `f`:
    each field is given its field check and evaluated. -/
def Execute.loop (f : flag) (ParentName : String) :
    List (StructField × GoValue) → ValidationErrors → Except Panic ValidationErrors
  | [], Errors => .ok Errors
  | (s, v) :: rest, Errors =>
    match EvalCheck (NewFieldCheck.Name ParentName s) s (f.Field s) v Errors with
    | .error p => .error p
    | .ok Errors1 => Execute.loop f ParentName rest Errors1
end

structure structValidator where
  RefValue : ReflectValue
  ParentName : String
  Errors : ValidationErrors

/-- The method `structValidator.Execute`: `none` is the nil pointer, `some errs` the
    contents of `vld.Errors`. -/
def structValidator.Execute (vld : structValidator) :
    Except Panic (Option ValidationErrors) :=
  match vld.RefValue with
  | .zero => .error .TypeOnZeroValue
  | .valid (.struct fields) f =>
    match Execute.loop f vld.ParentName fields vld.Errors with
    | .error p => .error p
    | .ok errs => if errs.length > 0 then .ok (some errs) else .ok none
  | .valid _ _ => .ok (some (vld.Errors.AddCustomError [⟨"Main", .ErrNotStruct⟩]))

def InitValidator (v : GoAny) (s : String) : structValidator :=
  match v with
  | .reflectValue rval => ⟨rval, s, []⟩
  | .nil => ⟨.zero, s, []⟩
  | .value x => ⟨.valid x ⟨false, false⟩, s, []⟩

/-- The function `Validate`: `none` is the nil error. -/
def Validate (av : GoAny) : Except Panic (Option ValidationErrors) :=
  match (InitValidator av "").Execute with
  | .error p => .error p
  | .ok (some errs) => .ok (some errs)
  | .ok none => .ok none

/-- The outcome `r` of a call that started from no error, seen from a caller
    that had already collected `Errors`. -/
def appendTo (Errors : ValidationErrors) :
    Except Panic ValidationErrors → Except Panic ValidationErrors
  | .error p => .error p
  | .ok out => .ok (Errors ++ out)

/-- Every violation of `out` is named `n` followed by some text (an element
    index, a dotted path, or nothing). -/
def NamedUnder (n : String) (out : ValidationErrors) : Prop :=
  ∀ e ∈ out, ∃ rest : String, e.Name = n ++ rest

/-! ## Statements of the specification used for comparison -/

/-- Stated from the specification (decimal integer): the number a run of
    decimal digits denotes, most significant digit first. -/
def Spec.digitsValue (ds : List Char) : Nat :=
  ds.foldl (fun n c => n * 10 + (c.toNat - 48)) 0

/-- Stated from the specification (decimal integer with optional sign): the
    text is an optional '+' or '-' followed by at least one decimal digit and
    nothing else. -/
def Spec.isSignedDecimal (s : String) : Bool :=
  match s.data with
  | [] => false
  | c :: cs =>
    if c = '+' ∨ c = '-' then !cs.isEmpty && cs.all Char.isDigit
    else (c :: cs).all Char.isDigit

/-- Stated from the specification: the integer a signed decimal text
    denotes. -/
def Spec.signedDecimalValue (s : String) : Int :=
  match s.data with
  | [] => 0
  | c :: cs =>
    if c = '-' then -(Spec.digitsValue cs : Int)
    else if c = '+' then (Spec.digitsValue cs : Int)
    else (Spec.digitsValue (c :: cs) : Int)

/-- Stated from the specification (machine range): the integer fits `int`. -/
def Spec.inIntRange (n : Int) : Bool :=
  decide (-(2 ^ (intSize - 1) : Int) ≤ n ∧ n < 2 ^ (intSize - 1))

/-- Stated from the specification: the raw value parses as the integer `n`: it
    is a signed decimal text denoting `n`, and `n` is in the machine range. -/
def Spec.parsesAsInt (s : String) (n : Int) : Prop :=
  Spec.isSignedDecimal s = true ∧ Spec.signedDecimalValue s = n ∧ Spec.inIntRange n = true

instance Spec.parsesAsInt.decidable (s : String) (n : Int) :
    Decidable (Spec.parsesAsInt s n) :=
  inferInstanceAs (Decidable (_ ∧ _ ∧ _))

/-- Stated from the specification (rule sets are type-correct for the kind of
    the field): for a text field a `len`, `min` or `max` rule holds an integer
    and an `in` rule a list of text; for an integer field there is no `len`
    rule, a `min` or `max` rule holds an integer and an `in` rule a list of
    integers. -/
def Spec.typeCorrect (kt : Kind) (ct : checkType) : Bool :=
  if kt = Kind.string then
    match ct.Value with
    | .int _ => decide (ct.Typ = "len" ∨ ct.Typ = "min" ∨ ct.Typ = "max")
    | .strings _ => decide (ct.Typ = "in")
    | .ints _ => false
  else
    match ct.Value with
    | .int _ => decide (ct.Typ = "min" ∨ ct.Typ = "max")
    | .ints _ => decide (ct.Typ = "in")
    | .strings _ => false

/-- Stated from the specification (text rules): `len` is exact rune-count
    equality, `min` and `max` bound the rune count, `in` is membership in the
    text set. -/
def Spec.passesText (s : String) (ct : checkType) : Bool :=
  match ct.Value with
  | .int c =>
    if ct.Typ = "len" then decide (runeCount s = c)
    else if ct.Typ = "min" then decide (runeCount s ≥ c)
    else if ct.Typ = "max" then decide (runeCount s ≤ c)
    else true
  | .strings ins => if ct.Typ = "in" then decide (s ∈ ins) else true
  | .ints _ => true

/-- Stated from the specification (integer rules): `min` is value ≥ bound,
    `max` is value ≤ bound, `in` is membership in the integer set. -/
def Spec.passesInt (i : Int) (ct : checkType) : Bool :=
  match ct.Value with
  | .int c =>
    if ct.Typ = "min" then decide (i ≥ c)
    else if ct.Typ = "max" then decide (i ≤ c)
    else true
  | .ints ins => if ct.Typ = "in" then decide (i ∈ ins) else true
  | .strings _ => true

/-- The causes `Check` returns for a value, in the order of the rules (none
    where it panics). -/
def Check.causes (CheckTypes : checkTypes) (v : DynValue) (t : Kind) : List GoErr :=
  match Check CheckTypes v t with
  | .ok errs => errs
  | .error _ => []

/-! ## Auxiliary lemmas -/

theorem AddError_eq (name : String) (es : List GoErr) (errs : ValidationErrors) :
    errs.AddError name es = errs ++ es.map (fun e => ⟨name, e⟩) := by
  induction es generalizing errs with
  | nil => simp [ValidationErrors.AddError]
  | cons e rest ih =>
    simp [ValidationErrors.AddError, ValidationErrors.AddCustomError, ih]

theorem ValidateRange_iff (v cmin cmax : Int) :
    ValidateRange v cmin cmax = true ↔ cmin ≤ v ∧ v ≤ cmax := by
  simp [ValidateRange]

/-! ## The text length checks -/

/-- C10: the text length checks compare the rune count of the value, not its
    byte length: `ValidateLength` holds iff the rune count equals the bound,
    `ValidateLengthRangeMin` iff it is at least the bound,
    `ValidateLengthRangeMax` iff it is at most the bound, and `CheckString`
    with a single `len` / `min` / `max` rule returns no cause in exactly these
    cases. -/
theorem CheckString_length_rules (v : String) (c : Int) :
    runeCount v = (v.length : Int) ∧
    (ValidateLength v c = true ↔ runeCount v = c) ∧
    (ValidateLengthRangeMin v c = true ↔ runeCount v ≥ c) ∧
    (ValidateLengthRangeMax v c = true ↔ runeCount v ≤ c) ∧
    (CheckString [⟨"len", .int c⟩] v = .ok [] ↔ runeCount v = c) ∧
    (CheckString [⟨"min", .int c⟩] v = .ok [] ↔ runeCount v ≥ c) ∧
    (CheckString [⟨"max", .int c⟩] v = .ok [] ↔ runeCount v ≤ c) ∧
    (ValidateLength "日本" 2 = true ∧ "日本".utf8ByteSize = 6) := by
  refine ⟨rfl, ?_, ?_, ?_, ?_, ?_, ?_, ?_⟩
  · simp [ValidateLength]
  · simp [ValidateLengthRangeMin, ValidateRange_iff]
  · simp [ValidateLengthRangeMax, ValidateRange_iff]
  · by_cases h : runeCount v = c
    · simp [CheckString, CheckString.loop, CheckString.rule, ValidateLength, h]
    · simp [CheckString, CheckString.loop, CheckString.rule, ValidateLength, h]
  · by_cases h : c ≤ runeCount v
    · simp [CheckString, CheckString.loop, CheckString.rule, ValidateLengthRangeMin,
        ValidateRange, h]
    · simp [CheckString, CheckString.loop, CheckString.rule, ValidateLengthRangeMin,
        ValidateRange, h]
  · by_cases h : runeCount v ≤ c
    · simp [CheckString, CheckString.loop, CheckString.rule, ValidateLengthRangeMax,
        ValidateRange, h]
    · simp [CheckString, CheckString.loop, CheckString.rule, ValidateLengthRangeMax,
        ValidateRange, h]
  · decide

/-! ## The entry point -/

/-- A nil argument reaches `reflect.Value.Type` as the zero Value. -/
theorem Validate_nil : Validate GoAny.nil = .error Panic.TypeOnZeroValue := rfl

/-- The result of `Validate` on a record reached with flag `f`, in terms of the traversal of
    its fields. -/
theorem Validate_reflect_struct (fields : List (StructField × GoValue)) (f : flag) :
    Validate (.reflectValue (.valid (.struct fields) f)) =
      match Execute.loop f "" fields [] with
      | .error p => .error p
      | .ok errs => if errs.length > 0 then .ok (some errs) else .ok none := by
  simp only [Validate, InitValidator, structValidator.Execute]
  cases Execute.loop f "" fields [] with
  | error p => rfl
  | ok errs =>
    by_cases h : errs.length > 0
    · simp [h]
    · simp [h]

theorem Validate_value_eq (v : GoValue) :
    Validate (.value v) = Validate (.reflectValue (.valid v ⟨false, false⟩)) := rfl

/-- The three outcomes of `Validate` on a record, read off the traversal. -/
theorem Validate_reflect_struct_cases (fields : List (StructField × GoValue)) (g : flag) :
    (Validate (.reflectValue (.valid (.struct fields) g)) = .ok none ↔
      Execute.loop g "" fields [] = .ok []) ∧
    (∀ errs, Validate (.reflectValue (.valid (.struct fields) g)) = .ok (some errs) ↔
      (Execute.loop g "" fields [] = .ok errs ∧ errs ≠ [])) ∧
    (∀ p, Validate (.reflectValue (.valid (.struct fields) g)) = .error p ↔
      Execute.loop g "" fields [] = .error p) := by
  rw [Validate_reflect_struct]
  cases Execute.loop g "" fields [] with
  | error p => simp
  | ok errs =>
    cases errs with
    | nil => simp
    | cons e es => simp

/-- The function `Validate` never returns a present but empty list. -/
theorem Validate_ne_empty (av : GoAny) : Validate av ≠ .ok (some []) := by
  have hv : ∀ (v : GoValue) (g : flag),
      Validate (.reflectValue (.valid v g)) ≠ .ok (some []) := by
    intro v g
    cases v with
    | struct fs =>
      intro h
      exact (((Validate_reflect_struct_cases fs g).2.1 []).1 h).2 rfl
    | int i => simp [Validate, InitValidator, structValidator.Execute,
        ValidationErrors.AddCustomError]
    | string s => simp [Validate, InitValidator, structValidator.Execute,
        ValidationErrors.AddCustomError]
    | other t => simp [Validate, InitValidator, structValidator.Execute,
        ValidationErrors.AddCustomError]
    | seq k e => simp [Validate, InitValidator, structValidator.Execute,
        ValidationErrors.AddCustomError]
  cases av with
  | nil => simp [Validate_nil]
  | value v => rw [Validate_value_eq]; exact hv v _
  | reflectValue rval =>
    cases rval with
    | zero => simp [Validate, InitValidator, structValidator.Execute]
    | valid v g => exact hv v g

/-- The outcome of `Validate` on a record input (handed over directly, or
    wrapped in a `reflect.Value` with any flag), read off the traversal of the
    fields: nil iff the traversal ends with no violation appended; the
    violation list `errs` iff the traversal ends with exactly `errs` appended
    and `errs` is not empty; a panic iff the traversal panics. For no input at
    all does it return a present but empty list. -/
theorem Validate_struct_nil_iff (fields : List (StructField × GoValue)) (f : flag) :
    (Validate (.reflectValue (.valid (.struct fields) f)) = .ok none ↔
      Execute.loop f "" fields [] = .ok []) ∧
    (∀ errs, Validate (.reflectValue (.valid (.struct fields) f)) = .ok (some errs) ↔
      (Execute.loop f "" fields [] = .ok errs ∧ errs ≠ [])) ∧
    (∀ p, Validate (.reflectValue (.valid (.struct fields) f)) = .error p ↔
      Execute.loop f "" fields [] = .error p) ∧
    (Validate (.value (.struct fields)) = .ok none ↔
      Execute.loop ⟨false, false⟩ "" fields [] = .ok []) ∧
    (∀ errs, Validate (.value (.struct fields)) = .ok (some errs) ↔
      (Execute.loop ⟨false, false⟩ "" fields [] = .ok errs ∧ errs ≠ [])) ∧
    (∀ p, Validate (.value (.struct fields)) = .error p ↔
      Execute.loop ⟨false, false⟩ "" fields [] = .error p) ∧
    (∀ av, Validate av ≠ .ok (some [])) := by
  have k1 := Validate_reflect_struct_cases fields f
  have k2 := Validate_reflect_struct_cases fields ⟨false, false⟩
  refine ⟨k1.1, k1.2.1, k1.2.2, ?_, ?_, ?_, Validate_ne_empty⟩
  · rw [Validate_value_eq]; exact k2.1
  · rw [Validate_value_eq]; exact k2.2.1
  · rw [Validate_value_eq]; exact k2.2.2

/-- Every input that holds a value whose kind is not `Struct` (handed over
    directly, or wrapped in a `reflect.Value`) is rejected with exactly one
    violation, named "Main", with cause `ErrNotStruct`. -/
theorem Validate_not_struct (v : GoValue) (f : flag) (h : v.Kind ≠ Kind.struct) :
    Validate (.value v) = .ok (some [⟨"Main", GoErr.ErrNotStruct⟩]) ∧
    Validate (.reflectValue (.valid v f)) = .ok (some [⟨"Main", GoErr.ErrNotStruct⟩]) := by
  cases v with
  | struct fs => exact absurd rfl h
  | int i => exact ⟨rfl, rfl⟩
  | string s => exact ⟨rfl, rfl⟩
  | other t => exact ⟨rfl, rfl⟩
  | seq k e => exact ⟨rfl, rfl⟩

theorem Validate_not_struct_witness :
    (GoValue.other OtherType.pointer).Kind ≠ Kind.struct ∧
    Validate (.value (.other .pointer)) = .ok (some [⟨"Main", GoErr.ErrNotStruct⟩]) ∧
    Validate (.reflectValue (.valid (.other .pointer) ⟨true, false⟩)) =
      .ok (some [⟨"Main", GoErr.ErrNotStruct⟩]) :=
  ⟨by decide, Validate_not_struct (.other .pointer) ⟨true, false⟩ (by decide)⟩

/-- C1: records on which `Validate` returns neither nil nor a violation
    list. With `type Age int`, the record `{A int "min:5"; B Age "min:1"}` with
    `A = 1`: the traversal appends the violation of `A`, then `Check` asserts
    `v.(int)` on the value of `B`, of dynamic type `Age`, and `Validate`
    panics; with `B` of type `int` the same record gives the two violations.
    The record `{inner struct{X int "min:0"}}` is read through its unexported
    field, so `Interface` panics on `X`. -/
theorem Validate_record_panics :
    Execute.loop ⟨false, false⟩ "" [(⟨"A", "", some "min:5", false⟩, .int 1)] [] =
      .ok [⟨"A", .Errorf "value 1 is less than 5"⟩] ∧
    Validate (.value (.struct [(⟨"A", "", some "min:5", false⟩, .int 1),
        (⟨"B", "", some "min:1", false⟩, .int 0)])) =
      .ok (some [⟨"A", .Errorf "value 1 is less than 5"⟩,
        ⟨"B", .Errorf "value 0 is less than 1"⟩]) ∧
    Validate (.value (.struct [(⟨"A", "", some "min:5", false⟩, .int 1),
        (⟨"B", "", some "min:1", false⟩, .other .definedInt)])) =
      .error Panic.TypeAssertion ∧
    Validate (.value (.struct [(⟨"A", "", some "min:5", false⟩, .int 1),
        (⟨"B", "", some "min:1", false⟩, .other .definedInt)])) ≠ .ok none ∧
    (∀ errs, Validate (.value (.struct [(⟨"A", "", some "min:5", false⟩, .int 1),
        (⟨"B", "", some "min:1", false⟩, .other .definedInt)])) ≠ .ok (some errs)) ∧
    Validate (.value (.struct [(⟨"inner", "main", none, false⟩,
        .struct [(⟨"X", "", some "min:0", false⟩, .int (-1))])])) =
      .error Panic.InterfaceOnReadOnly := by
  have hval : Validate (.value (.struct [(⟨"A", "", some "min:5", false⟩, .int 1),
      (⟨"B", "", some "min:1", false⟩, .other .definedInt)])) =
      .error Panic.TypeAssertion := by decide
  refine ⟨by decide, by decide, hval, ?_, ?_, by decide⟩
  · rw [hval]
    intro h
    cases h
  · intro errs
    rw [hval]
    intro h
    cases h

/-- C2: roots that are not records and are not rejected with `ErrNotStruct`.
    For the nil argument and for the zero `reflect.Value`, `Execute` calls
    `vld.RefValue.Type()` before it tests the kind, and that call panics; a
    root that holds a value of another kind, such as an `int`, is rejected
    with the single violation named "Main". -/
theorem Validate_nil_root_panics :
    (InitValidator GoAny.nil "").RefValue = ReflectValue.zero ∧
    Validate GoAny.nil = .error Panic.TypeOnZeroValue ∧
    Validate (.reflectValue .zero) = .error Panic.TypeOnZeroValue ∧
    Validate GoAny.nil ≠ .ok (some [⟨"Main", GoErr.ErrNotStruct⟩]) ∧
    Validate (.value (.int 5)) = .ok (some [⟨"Main", GoErr.ErrNotStruct⟩]) := by
  refine ⟨rfl, rfl, rfl, ?_, rfl⟩
  intro h
  cases h

/-! ## The rule parser -/

/-- The loop of `ParseTag` over `pre ++ rest` runs over `pre` and, when that
    succeeds, goes on over `rest`. -/
theorem ParseTag_loop_append (vt : Kind) (pre rest : List String) (cts : checkTypes) :
    ParseTag.loop vt (pre ++ rest) cts =
      match ParseTag.loop vt pre cts with
      | .error err => .error err
      | .ok cts1 => ParseTag.loop vt rest cts1 := by
  induction pre generalizing cts with
  | nil => simp [ParseTag.loop]
  | cons tag more ih =>
    simp only [List.cons_append, ParseTag.loop]
    split
    · split
      · rfl
      · split
        · rfl
        · exact ih _
    · rfl

/-- A clause with fewer than two parts, or whose first or second part is
    empty, stops the loop with `ErrInvalidValidatorSyntax`. -/
theorem ParseTag_loop_malformed (vt : Kind) (clause : String) (post : List String)
    (cts : checkTypes)
    (h : (Split clause ':').length < 2 ∨ (Split clause ':')[0]? = some "" ∨
      (Split clause ':')[1]? = some "") :
    ParseTag.loop vt (clause :: post) cts = .error GoErr.ErrInvalidValidatorSyntax := by
  simp only [ParseTag.loop]
  split
  · rename_i tp0 tp1 more heq
    rw [heq] at h
    have h2 : tp0 = "" ∨ tp1 = "" := by
      rcases h with h | h | h
      · simp only [List.length_cons] at h
        omega
      · left; simpa using h
      · right; simpa using h
    simp [h2]
  · rfl

/-- A clause with at least two parts, the first two not empty, is handed to
    `Init` as `checkType{tp[0], tp[1]}`; the parts after the second are not
    looked at. -/
theorem ParseTag_loop_wellformed (vt : Kind) (clause : String) (post : List String)
    (cts : checkTypes) (key value : String) (more : List String)
    (hs : Split clause ':' = key :: value :: more) (hk : key ≠ "") (hv : value ≠ "") :
    ParseTag.loop vt (clause :: post) cts =
      match checkType.Init key value vt with
      | .error err => .error err
      | .ok ct => ParseTag.loop vt post (cts ++ [ct]) := by
  simp only [ParseTag.loop, hs]
  simp [hk, hv]

/-- C3 (as stated): the clause "min:1:2" splits into three parts and is not
    rejected; it is parsed as the rule `min 1`. -/
theorem ParseTag_three_parts_accepted :
    Split "min:1:2" ':' = ["min", "1", "2"] ∧
    ParseTag "min:1:2" Kind.int = .ok [⟨"min", .int 1⟩] ∧
    ParseTag "min:1:2" Kind.int ≠ .error GoErr.ErrInvalidValidatorSyntax := by
  decide

/-- C3 (amended): let the clauses before `clause` parse, to the rules `cts`.
    If `clause` splits on ':' into fewer than two parts, or its first or second
    part is empty, `ParseTag` fails with `ErrInvalidValidatorSyntax`. If it
    splits into at least two parts, the first two not empty, it passes the
    syntax check whatever follows the second part: `ParseTag` goes on with
    `Init` on the first two parts alone. -/
theorem ParseTag_clause_syntax (t : String) (vt : Kind) (pre post : List String)
    (clause : String) (cts : checkTypes) (ht : t ≠ "")
    (hsplit : Split t ';' = pre ++ clause :: post)
    (hpre : ParseTag.loop vt pre [] = .ok cts) :
    (((Split clause ':').length < 2 ∨ (Split clause ':')[0]? = some "" ∨
        (Split clause ':')[1]? = some "") →
      ParseTag t vt = .error GoErr.ErrInvalidValidatorSyntax) ∧
    (∀ key value more, Split clause ':' = key :: value :: more → key ≠ "" → value ≠ "" →
      ParseTag t vt =
        match checkType.Init key value vt with
        | .error err => .error err
        | .ok ct => ParseTag.loop vt post (cts ++ [ct])) := by
  have hrun : ParseTag t vt = ParseTag.loop vt (clause :: post) cts := by
    simp only [ParseTag, ht, if_false, hsplit]
    rw [ParseTag_loop_append, hpre]
  constructor
  · intro h
    rw [hrun]
    exact ParseTag_loop_malformed vt clause post cts h
  · intro key value more hs hk hv
    rw [hrun]
    exact ParseTag_loop_wellformed vt clause post cts key value more hs hk hv

theorem ParseTag_clause_syntax_witness :
    ("min:1;max;in:2:3" ≠ "" ∧
      Split "min:1;max;in:2:3" ';' = ["min:1"] ++ "max" :: ["in:2:3"] ∧
      ParseTag.loop Kind.int ["min:1"] [] = .ok [⟨"min", .int 1⟩]) ∧
    ((((Split "max" ':').length < 2 ∨ (Split "max" ':')[0]? = some "" ∨
        (Split "max" ':')[1]? = some "") →
      ParseTag "min:1;max;in:2:3" Kind.int = .error GoErr.ErrInvalidValidatorSyntax) ∧
    (∀ key value more, Split "max" ':' = key :: value :: more → key ≠ "" → value ≠ "" →
      ParseTag "min:1;max;in:2:3" Kind.int =
        match checkType.Init key value Kind.int with
        | .error err => .error err
        | .ok ct => ParseTag.loop Kind.int ["in:2:3"] ([⟨"min", .int 1⟩] ++ [ct]))) :=
  ⟨by decide,
    ParseTag_clause_syntax "min:1;max;in:2:3" Kind.int ["min:1"] ["in:2:3"] "max"
      [⟨"min", .int 1⟩] (by decide) (by decide) (by decide)⟩

/-- C4 (as stated): on a text field the clause `len:-1` is accepted, although
    "-1" is not a non-negative integer literal. -/
theorem Init_len_negative_accepted :
    checkType.Init "len" "-1" Kind.string = .ok ⟨"len", .int (-1)⟩ ∧
    ParseTag "len:-1" Kind.string = .ok [⟨"len", .int (-1)⟩] ∧
    checkType.Init "len" "-1" Kind.string ≠ .error GoErr.ErrInvalidValidatorSyntax := by
  decide

/-- C4 (amended): on a text field, `Init` accepts a `len` clause exactly when
    `strconv.Atoi` parses its raw value, whatever the sign of the integer, and
    stores that integer; for every other raw value it fails with
    `ErrInvalidValidatorSyntax`. So does `ParseTag` on a clause whose first two
    parts are "len" and the raw value. -/
theorem Init_len_string (sval : String) :
    checkType.Init "len" sval Kind.string =
      (match Atoi sval with
       | none => .error GoErr.ErrInvalidValidatorSyntax
       | some val => .ok ⟨"len", .int val⟩) ∧
    (Atoi sval = none ↔
      checkType.Init "len" sval Kind.string = .error GoErr.ErrInvalidValidatorSyntax) ∧
    (∀ (clause : String) (more post : List String) (cts : checkTypes),
      Split clause ':' = "len" :: sval :: more → sval ≠ "" →
      ParseTag.loop Kind.string (clause :: post) cts =
        match Atoi sval with
        | none => .error GoErr.ErrInvalidValidatorSyntax
        | some val => ParseTag.loop Kind.string post (cts ++ [⟨"len", .int val⟩])) := by
  have h1 : checkType.Init "len" sval Kind.string =
      (match Atoi sval with
       | none => .error GoErr.ErrInvalidValidatorSyntax
       | some val => .ok ⟨"len", .int val⟩) := by
    simp only [checkType.Init, if_true, ne_eq, not_true_eq_false, if_false]
  refine ⟨h1, ?_, ?_⟩
  · rw [h1]
    cases Atoi sval <;> simp
  · intro clause more post cts hs hv
    rw [ParseTag_loop_wellformed Kind.string clause post cts "len" sval more hs (by decide) hv,
      h1]
    cases Atoi sval <;> rfl

/-! ## The field visitor -/

theorem EvalCheck_struct (Name : String) (s : StructField) (f : flag)
    (fields : List (StructField × GoValue)) (Errors : ValidationErrors) :
    EvalCheck Name s f (.struct fields) Errors =
      match Execute.loop f Name fields [] with
      | .error p => .error p
      | .ok errs =>
        if errs.length > 0 then .ok (Errors.AddCustomError errs) else .ok Errors := by
  rw [EvalCheck]

theorem EvalCheck_not_struct (Name : String) (s : StructField) (f : flag) (v : GoValue)
    (Errors : ValidationErrors) (h : v.Kind ≠ Kind.struct) :
    EvalCheck Name s f v Errors = EvalCheck.field Name s f v Errors := by
  cases v with
  | struct fs => exact absurd rfl h
  | int i => rw [EvalCheck]
  | string x => rw [EvalCheck]
  | other t => rw [EvalCheck]
  | seq k e => rw [EvalCheck]

theorem Execute_loop_nil (f : flag) (ParentName : String) (Errors : ValidationErrors) :
    Execute.loop f ParentName [] Errors = .ok Errors := by
  rw [Execute.loop]

theorem Execute_loop_cons (f : flag) (ParentName : String) (s : StructField) (v : GoValue)
    (rest : List (StructField × GoValue)) (Errors : ValidationErrors) :
    Execute.loop f ParentName ((s, v) :: rest) Errors =
      match EvalCheck (NewFieldCheck.Name ParentName s) s (f.Field s) v Errors with
      | .error p => .error p
      | .ok Errors1 => Execute.loop f ParentName rest Errors1 := by
  rw [Execute.loop]

/-- C5 (as stated): an unexported field `items []int` with an annotation and
    no element gets the violation `ErrValidateForUnexportedFields`. -/
theorem EvalCheck_empty_unexported_violation :
    (GoValue.seq SeqKind.slice (Elems.ints [])).Kind = Kind.slice ∧
    (Elems.ints []).Len = 0 ∧
    StructField.IsExported ⟨"items", "main", some "min:1", false⟩ = false ∧
    EvalCheck "items" ⟨"items", "main", some "min:1", false⟩ ⟨true, false⟩
        (.seq .slice (.ints [])) [] =
      .ok [⟨"items", GoErr.ErrValidateForUnexportedFields⟩] ∧
    Validate (.value (.struct [(⟨"items", "main", some "min:1", false⟩,
        .seq .slice (.ints []))])) =
      .ok (some [⟨"items", GoErr.ErrValidateForUnexportedFields⟩]) := by
  decide

/-- C5 (amended): a collection field of length 0 that is exported, or has no
    annotation, gets no violation, whatever the annotation, the element type
    and the collection kind: `EvalCheck` leaves the errors as they are. -/
theorem EvalCheck_empty_collection (Name : String) (s : StructField) (f : flag)
    (k : SeqKind) (e : Elems) (Errors : ValidationErrors)
    (hlen : e.Len = 0) (hs : s.Tag = none ∨ s.IsExported = true) :
    EvalCheck Name s f (.seq k e) Errors = .ok Errors := by
  rw [EvalCheck_not_struct _ _ _ _ _ (by cases k <;> simp [GoValue.Kind, SeqKind.Kind])]
  unfold EvalCheck.field
  cases ht : s.Tag with
  | none => rfl
  | some vtag =>
    rcases hs with hs | hs
    · rw [ht] at hs; cases hs
    · simp [hs, EvalCheck.kt, hlen]

theorem EvalCheck_empty_collection_witness :
    ((Elems.others ElemType.struct 0).Len = 0 ∧
      ((⟨"Items", "", some "no:rule:at;all", false⟩ : StructField).Tag = none ∨
        StructField.IsExported ⟨"Items", "", some "no:rule:at;all", false⟩ = true)) ∧
    EvalCheck "Items" ⟨"Items", "", some "no:rule:at;all", false⟩ ⟨true, false⟩
        (.seq .array (.others .struct 0)) [⟨"A", GoErr.ErrUnsupportedType⟩] =
      .ok [⟨"A", GoErr.ErrUnsupportedType⟩] :=
  ⟨by decide,
    EvalCheck_empty_collection "Items" ⟨"Items", "", some "no:rule:at;all", false⟩
      ⟨true, false⟩ .array (.others .struct 0) [⟨"A", GoErr.ErrUnsupportedType⟩]
      (by decide) (by decide)⟩

/-- C6: a field that is not a nested record, has an annotation and is not
    exported gets exactly one violation, under its qualified name and with
    cause `ErrValidateForUnexportedFields`, whatever the annotation (so it is
    not parsed: the result does not depend on it) and whatever the value and
    its type. -/
theorem EvalCheck_unexported (Name : String) (s : StructField) (f : flag) (v : GoValue)
    (Errors : ValidationErrors) (vtag : String)
    (hv : v.Kind ≠ Kind.struct) (ht : s.Tag = some vtag) (hs : s.IsExported = false) :
    EvalCheck Name s f v Errors =
      .ok (Errors ++ [⟨Name, GoErr.ErrValidateForUnexportedFields⟩]) := by
  rw [EvalCheck_not_struct _ _ _ _ _ hv]
  unfold EvalCheck.field
  simp [ht, hs, ValidationErrors.AddCustomError]

theorem EvalCheck_unexported_witness :
    ((GoValue.other OtherType.float64).Kind ≠ Kind.struct ∧
      (⟨"ratio", "main", some ":::", false⟩ : StructField).Tag = some ":::" ∧
      StructField.IsExported ⟨"ratio", "main", some ":::", false⟩ = false) ∧
    EvalCheck "Outer.ratio" ⟨"ratio", "main", some ":::", false⟩ ⟨true, false⟩
        (.other .float64) [] =
      .ok ([] ++ [⟨"Outer.ratio", GoErr.ErrValidateForUnexportedFields⟩]) :=
  ⟨by decide,
    EvalCheck_unexported "Outer.ratio" ⟨"ratio", "main", some ":::", false⟩ ⟨true, false⟩
      (.other .float64) [] ":::" (by decide) (by decide) (by decide)⟩

/-- C9 (as stated): an exported, annotated field whose kind is `Struct`, so
    neither `String` nor `Int`, gets no `ErrUnsupportedType` violation: it is
    descended into, and its annotation is not looked at. -/
theorem EvalCheck_annotated_struct_descended :
    (GoValue.struct [(⟨"X", "", some "min:0", false⟩, .int (-1))]).Kind = Kind.struct ∧
    StructField.IsExported ⟨"Inner", "", some "min:1", false⟩ = true ∧
    EvalCheck "Inner" ⟨"Inner", "", some "min:1", false⟩ ⟨false, false⟩
        (.struct [(⟨"X", "", some "min:0", false⟩, .int (-1))]) [] =
      .ok [⟨"Inner.X", .Errorf "value -1 is less than 0"⟩] ∧
    EvalCheck "Inner" ⟨"Inner", "", some "min:1", false⟩ ⟨false, false⟩
        (.struct [(⟨"X", "", some "min:0", false⟩, .int 1)]) [] = .ok [] ∧
    EvalCheck "Inner" ⟨"Inner", "", some "min:1", false⟩ ⟨false, false⟩ (.struct []) [] ≠
      .ok [⟨"Inner", GoErr.ErrUnsupportedType⟩] := by
  decide

/-- C9 (amended): an exported, annotated field that is not a nested record
    and whose kind `kt` (the element kind, for a collection that is not empty;
    an empty collection has none) is neither `Int` nor `String` gets exactly one
    violation, under its qualified name and with cause `ErrUnsupportedType`,
    whatever the annotation. -/
theorem EvalCheck_unsupported_type (Name : String) (s : StructField) (f : flag)
    (v : GoValue) (Errors : ValidationErrors) (vtag : String) (kt : Kind)
    (ht : s.Tag = some vtag) (hs : s.IsExported = true) (hv : v.Kind ≠ Kind.struct)
    (hkt : EvalCheck.kt v = some kt) (hint : kt ≠ Kind.int) (hstr : kt ≠ Kind.string) :
    EvalCheck Name s f v Errors = .ok (Errors ++ [⟨Name, GoErr.ErrUnsupportedType⟩]) := by
  rw [EvalCheck_not_struct _ _ _ _ _ hv]
  unfold EvalCheck.field
  simp [ht, hs, hkt, hint, hstr, ValidationErrors.AddCustomError]

theorem EvalCheck_unsupported_type_witness :
    ((⟨"Rows", "", some "", false⟩ : StructField).Tag = some "" ∧
      StructField.IsExported ⟨"Rows", "", some "", false⟩ = true ∧
      (GoValue.seq SeqKind.slice (Elems.others ElemType.struct 2)).Kind ≠ Kind.struct ∧
      EvalCheck.kt (.seq .slice (.others .struct 2)) = some Kind.struct ∧
      Kind.struct ≠ Kind.int ∧ Kind.struct ≠ Kind.string) ∧
    EvalCheck "Rows" ⟨"Rows", "", some "", false⟩ ⟨false, false⟩
        (.seq .slice (.others .struct 2)) [] =
      .ok ([] ++ [⟨"Rows", GoErr.ErrUnsupportedType⟩]) :=
  ⟨by decide,
    EvalCheck_unsupported_type "Rows" ⟨"Rows", "", some "", false⟩ ⟨false, false⟩
      (.seq .slice (.others .struct 2)) [] "" Kind.struct
      (by decide) (by decide) (by decide) (by decide) (by decide) (by decide)⟩

/-- An exported field of kind `Int` or `String` whose annotation does not
    parse gets the parser's error, under its own name. -/
theorem EvalCheck_parse_error (Name : String) (s : StructField) (f : flag)
    (v : GoValue) (Errors : ValidationErrors) (vtag : String) (kt : Kind) (err : GoErr)
    (ht : s.Tag = some vtag) (hs : s.IsExported = true)
    (hkt : EvalCheck.kt v = some kt) (hk : kt = Kind.int ∨ kt = Kind.string)
    (hp : ParseTag vtag kt = .error err) :
    EvalCheck Name s f v Errors = .ok (Errors ++ [⟨Name, err⟩]) := by
  have hv : v.Kind ≠ Kind.struct := by
    intro h
    cases v with
    | struct fs =>
      simp only [EvalCheck.kt, GoValue.Kind, Option.some.injEq] at hkt
      subst hkt
      rcases hk with hk | hk <;> cases hk
    | int i => cases h
    | string x => cases h
    | other t => cases t <;> cases h
    | seq k e => cases k <;> cases h
  rw [EvalCheck_not_struct _ _ _ _ _ hv]
  unfold EvalCheck.field
  simp [ht, hs, hkt, hk, hp, ValidationErrors.AddCustomError]

/-! ## Errors collected before a call do not change what it appends -/

theorem appendTo_ok (E out : ValidationErrors) : appendTo E (.ok out) = .ok (E ++ out) := rfl

theorem appendTo_error (E : ValidationErrors) (p : Panic) : appendTo E (.error p) = .error p :=
  rfl

theorem appendTo_nil (r : Except Panic ValidationErrors) : appendTo [] r = r := by
  cases r <;> simp [appendTo_ok, appendTo_error]

theorem appendTo_appendTo (E D : ValidationErrors) (r : Except Panic ValidationErrors) :
    appendTo E (appendTo D r) = appendTo (E ++ D) r := by
  cases r <;> simp [appendTo_ok, appendTo_error]

theorem EvalCheck_elems_append (Name : String) (cts : checkTypes) (kt : Kind) (f : flag)
    (xs : List DynValue) (i : Nat) (Errors : ValidationErrors) :
    EvalCheck.elems Name cts kt f xs i Errors =
      appendTo Errors (EvalCheck.elems Name cts kt f xs i []) := by
  induction xs generalizing i Errors with
  | nil => simp [EvalCheck.elems, appendTo_ok]
  | cons x rest ih =>
    simp only [EvalCheck.elems]
    generalize Interface f.Index x = r1
    cases r1 with
    | error p => simp [appendTo_error]
    | ok v =>
      simp only []
      generalize Check cts v kt = r2
      cases r2 with
      | error p => simp [appendTo_error]
      | ok errs =>
        simp only []
        by_cases h : errs.length > 0
        · simp only [h, if_true]
          rw [ih (i + 1) (ValidationErrors.AddError Errors _ errs),
            ih (i + 1) (ValidationErrors.AddError [] _ errs), appendTo_appendTo]
          simp [AddError_eq]
        · simp only [h, if_false]
          rw [ih (i + 1) Errors]

theorem EvalCheck_eval_append (Name : String) (cts : checkTypes) (kt : Kind) (f : flag)
    (v : GoValue) (Errors : ValidationErrors) :
    EvalCheck.eval Name cts kt f v Errors =
      appendTo Errors (EvalCheck.eval Name cts kt f v []) := by
  have scalar : ∀ w : GoValue,
      (if w.Kind = Kind.int ∨ w.Kind = Kind.string then
        match Interface f w.Dyn with
        | .error p => .error p
        | .ok x =>
          match Check cts x kt with
          | .error p => .error p
          | .ok errs =>
            (.ok (if errs.length > 0 then Errors.AddError Name errs else Errors) :
              Except Panic ValidationErrors)
      else .ok Errors) =
      appendTo Errors
        (if w.Kind = Kind.int ∨ w.Kind = Kind.string then
          match Interface f w.Dyn with
          | .error p => .error p
          | .ok x =>
            match Check cts x kt with
            | .error p => .error p
            | .ok errs =>
              .ok (if errs.length > 0 then ValidationErrors.AddError [] Name errs else [])
        else .ok []) := by
    intro w
    by_cases hk : w.Kind = Kind.int ∨ w.Kind = Kind.string
    · simp only [hk, if_true]
      generalize Interface f w.Dyn = r1
      cases r1 with
      | error p => simp [appendTo_error]
      | ok x =>
        simp only []
        generalize Check cts x kt = r2
        cases r2 with
        | error p => simp [appendTo_error]
        | ok errs =>
          by_cases h : errs.length > 0
          · simp [h, AddError_eq, appendTo_ok]
          · simp [h, appendTo_ok]
    · simp [hk, appendTo_ok]
  cases v with
  | struct fs => simp [EvalCheck.eval, appendTo_ok]
  | seq k e => simpa [EvalCheck.eval] using EvalCheck_elems_append Name cts kt f e.Dyn 0 Errors
  | int i => simpa [EvalCheck.eval] using scalar (.int i)
  | string x => simpa [EvalCheck.eval] using scalar (.string x)
  | other t => simpa [EvalCheck.eval] using scalar (.other t)

theorem EvalCheck_field_append (Name : String) (s : StructField) (f : flag)
    (v : GoValue) (Errors : ValidationErrors) :
    EvalCheck.field Name s f v Errors = appendTo Errors (EvalCheck.field Name s f v []) := by
  unfold EvalCheck.field
  cases s.Tag with
  | none => simp [appendTo_ok]
  | some vtag =>
    by_cases hs : s.IsExported = true
    · simp only [hs, Bool.not_true, Bool.false_eq_true, if_false]
      cases EvalCheck.kt v with
      | none => simp [appendTo_ok]
      | some kt =>
        by_cases hk : kt = Kind.int ∨ kt = Kind.string
        · simp only [hk, if_true]
          generalize hr : ParseTag vtag kt = r
          cases r with
          | error err => simp [appendTo_ok, ValidationErrors.AddCustomError]
          | ok cts => exact EvalCheck_eval_append Name cts kt f v Errors
        · simp [hk, appendTo_ok, ValidationErrors.AddCustomError]
    · simp [hs, appendTo_ok, ValidationErrors.AddCustomError]

theorem EvalCheck_append (Name : String) (s : StructField) (f : flag)
    (v : GoValue) (Errors : ValidationErrors) :
    EvalCheck Name s f v Errors = appendTo Errors (EvalCheck Name s f v []) := by
  by_cases hv : v.Kind = Kind.struct
  · cases v with
    | struct fs =>
      rw [EvalCheck_struct, EvalCheck_struct]
      generalize Execute.loop f Name fs [] = r
      cases r with
      | error p => simp [appendTo_error]
      | ok errs =>
        by_cases h : errs.length > 0
        · simp [h, appendTo_ok, ValidationErrors.AddCustomError]
        · have : errs = [] := by
            cases errs with
            | nil => rfl
            | cons a l => simp at h
          simp [this, appendTo_ok]
    | int i => cases hv
    | string x => cases hv
    | other t => cases t <;> cases hv
    | seq k e => cases k <;> cases hv
  · rw [EvalCheck_not_struct _ _ _ _ _ hv, EvalCheck_not_struct _ _ _ _ _ hv]
    exact EvalCheck_field_append Name s f v Errors

theorem Execute_loop_append (f : flag) (ParentName : String)
    (fields : List (StructField × GoValue)) (Errors : ValidationErrors) :
    Execute.loop f ParentName fields Errors =
      appendTo Errors (Execute.loop f ParentName fields []) := by
  induction fields generalizing Errors with
  | nil => simp [Execute_loop_nil, appendTo_ok]
  | cons sv rest ih =>
    obtain ⟨s, v⟩ := sv
    rw [Execute_loop_cons, Execute_loop_cons, EvalCheck_append]
    generalize EvalCheck (NewFieldCheck.Name ParentName s) s (f.Field s) v [] = r
    cases r with
    | error p => simp [appendTo_error]
    | ok out =>
      simp only [appendTo_ok]
      rw [ih (Errors ++ out), ih out, appendTo_appendTo]

theorem Execute_loop_fields_append (f : flag) (ParentName : String)
    (pre post : List (StructField × GoValue)) (Errors : ValidationErrors) :
    Execute.loop f ParentName (pre ++ post) Errors =
      match Execute.loop f ParentName pre Errors with
      | .error p => .error p
      | .ok Errors1 => Execute.loop f ParentName post Errors1 := by
  induction pre generalizing Errors with
  | nil => simp [Execute_loop_nil]
  | cons sv rest ih =>
    obtain ⟨s, v⟩ := sv
    rw [List.cons_append, Execute_loop_cons, Execute_loop_cons]
    generalize EvalCheck (NewFieldCheck.Name ParentName s) s (f.Field s) v Errors = r
    cases r with
    | error p => rfl
    | ok out => exact ih out

/-! ## The names of the violations -/

theorem NamedUnder_nil (n : String) : NamedUnder n [] := by
  intro e he
  cases he

theorem NamedUnder_append (n : String) (a b : ValidationErrors)
    (ha : NamedUnder n a) (hb : NamedUnder n b) : NamedUnder n (a ++ b) := by
  intro e he
  rcases List.mem_append.1 he with h | h
  · exact ha e h
  · exact hb e h

theorem NamedUnder_map (n nm rest : String) (hnm : nm = n ++ rest) (errs : List GoErr) :
    NamedUnder n (errs.map (fun e => (⟨nm, e⟩ : ValidationError))) := by
  intro e he
  rcases List.mem_map.1 he with ⟨x, _, rfl⟩
  exact ⟨rest, hnm⟩

theorem NamedUnder_weaken (n m : String) (out : ValidationErrors)
    (h : NamedUnder (n ++ m) out) : NamedUnder n out := by
  intro e he
  obtain ⟨rest, hr⟩ := h e he
  exact ⟨m ++ rest, by rw [hr, String.append_assoc]⟩

theorem EvalCheck_elems_named (Name : String) (cts : checkTypes) (kt : Kind) (f : flag)
    (xs : List DynValue) (i : Nat) (out : ValidationErrors)
    (h : EvalCheck.elems Name cts kt f xs i [] = .ok out) : NamedUnder Name out := by
  induction xs generalizing i out with
  | nil =>
    simp only [EvalCheck.elems, Except.ok.injEq] at h
    subst h
    exact NamedUnder_nil _
  | cons x rest ih =>
    simp only [EvalCheck.elems] at h
    generalize Interface f.Index x = r1 at h
    cases r1 with
    | error p => cases h
    | ok v =>
      simp only [] at h
      generalize Check cts v kt = r2 at h
      cases r2 with
      | error p => cases h
      | ok errs =>
        simp only [] at h
        rw [EvalCheck_elems_append] at h
        generalize hr : EvalCheck.elems Name cts kt f rest (i + 1) [] = r3 at h
        cases r3 with
        | error p => cases h
        | ok out1 =>
          simp only [appendTo_ok, Except.ok.injEq] at h
          subst h
          refine NamedUnder_append _ _ _ ?_ (ih (i + 1) out1 hr)
          by_cases hl : errs.length > 0
          · simp only [hl, if_true, AddError_eq, List.nil_append]
            exact NamedUnder_map Name _ ("[" ++ (toString i ++ "]"))
              (by simp [String.append_assoc]) errs
          · simp only [hl, if_false]
            exact NamedUnder_nil _

theorem EvalCheck_eval_named (Name : String) (cts : checkTypes) (kt : Kind) (f : flag)
    (v : GoValue) (out : ValidationErrors)
    (h : EvalCheck.eval Name cts kt f v [] = .ok out) : NamedUnder Name out := by
  have scalar : ∀ w : GoValue,
      ((if w.Kind = Kind.int ∨ w.Kind = Kind.string then
        match Interface f w.Dyn with
        | .error p => .error p
        | .ok x =>
          match Check cts x kt with
          | .error p => .error p
          | .ok errs =>
            .ok (if errs.length > 0 then ValidationErrors.AddError [] Name errs else [])
      else .ok []) : Except Panic ValidationErrors) = .ok out → NamedUnder Name out := by
    intro w hw
    by_cases hk : w.Kind = Kind.int ∨ w.Kind = Kind.string
    · simp only [hk, if_true] at hw
      generalize Interface f w.Dyn = r1 at hw
      cases r1 with
      | error p => cases hw
      | ok x =>
        simp only [] at hw
        generalize Check cts x kt = r2 at hw
        cases r2 with
        | error p => cases hw
        | ok errs =>
          simp only [Except.ok.injEq] at hw
          subst hw
          by_cases hl : errs.length > 0
          · simp only [hl, if_true, AddError_eq, List.nil_append]
            exact NamedUnder_map Name Name "" (by simp) errs
          · simp only [hl, if_false]
            exact NamedUnder_nil _
    · simp only [hk, if_false, Except.ok.injEq] at hw
      subst hw
      exact NamedUnder_nil _
  cases v with
  | struct fs =>
    simp only [EvalCheck.eval, Except.ok.injEq] at h
    subst h
    exact NamedUnder_nil _
  | seq k e =>
    simp only [EvalCheck.eval] at h
    exact EvalCheck_elems_named Name cts kt f e.Dyn 0 out h
  | int i => exact scalar (.int i) (by simpa [EvalCheck.eval] using h)
  | string x => exact scalar (.string x) (by simpa [EvalCheck.eval] using h)
  | other t => exact scalar (.other t) (by simpa [EvalCheck.eval] using h)

theorem NamedUnder_single (n : String) (err : GoErr) : NamedUnder n [⟨n, err⟩] := by
  simpa using NamedUnder_map n n "" (by simp) [err]

theorem EvalCheck_field_named (Name : String) (s : StructField) (f : flag)
    (v : GoValue) (out : ValidationErrors)
    (h : EvalCheck.field Name s f v [] = .ok out) : NamedUnder Name out := by
  unfold EvalCheck.field at h
  cases hs : s.Tag with
  | none =>
    simp only [hs, Except.ok.injEq] at h
    subst h
    exact NamedUnder_nil _
  | some vtag =>
    simp only [hs] at h
    by_cases he : s.IsExported = true
    · simp only [he, Bool.not_true, Bool.false_eq_true, if_false] at h
      cases hkt : EvalCheck.kt v with
      | none =>
        simp only [hkt, Except.ok.injEq] at h
        subst h
        exact NamedUnder_nil _
      | some kt =>
        simp only [hkt] at h
        by_cases hk : kt = Kind.int ∨ kt = Kind.string
        · simp only [hk, if_true] at h
          generalize ParseTag vtag kt = r at h
          cases r with
          | error err =>
            simp only [ValidationErrors.AddCustomError, List.nil_append,
              Except.ok.injEq] at h
            subst h
            exact NamedUnder_single _ _
          | ok cts => exact EvalCheck_eval_named Name cts kt f v out h
        · simp only [hk, if_false, ValidationErrors.AddCustomError, List.nil_append,
            Except.ok.injEq] at h
          subst h
          exact NamedUnder_single _ _
    · simp only [he, Bool.not_false, if_true, ValidationErrors.AddCustomError,
        List.nil_append, Except.ok.injEq] at h
      subst h
      exact NamedUnder_single _ _

theorem NewFieldCheck_Name_under (ParentName : String) (s : StructField) :
    ∃ rest : String, NewFieldCheck.Name ParentName s = ParentName ++ rest := by
  by_cases h : ParentName = ""
  · exact ⟨s.Name, by simp [NewFieldCheck.Name, h]⟩
  · exact ⟨"." ++ s.Name, by simp [NewFieldCheck.Name, h, String.append_assoc]⟩

mutual
/-- Every violation a field contributes is named with the field's qualified
    name, followed by an element index, a dotted path, or nothing. -/
theorem EvalCheck_named : ∀ (v : GoValue) (Name : String) (s : StructField) (f : flag)
    (out : ValidationErrors), EvalCheck Name s f v [] = .ok out → NamedUnder Name out
  | .struct fields, Name, s, f, out => fun h => by
    rw [EvalCheck_struct] at h
    generalize hr : Execute.loop f Name fields [] = r at h
    cases r with
    | error q => cases h
    | ok errs =>
      by_cases hl : errs.length > 0
      · simp only [hl, if_true, ValidationErrors.AddCustomError, List.nil_append,
          Except.ok.injEq] at h
        subst h
        intro e he
        obtain ⟨sv, _, rest, hrest⟩ := Execute_loop_named fields f Name errs hr e he
        obtain ⟨rest2, h2⟩ := NewFieldCheck_Name_under Name sv.1
        exact ⟨rest2 ++ rest, by rw [hrest, h2, String.append_assoc]⟩
      · simp only [hl, if_false, Except.ok.injEq] at h
        subst h
        exact NamedUnder_nil _
  | .int i, Name, s, f, out => fun h =>
    EvalCheck_field_named Name s f (.int i) out
      (by rwa [EvalCheck_not_struct _ _ _ _ _ (by simp [GoValue.Kind])] at h)
  | .string x, Name, s, f, out => fun h =>
    EvalCheck_field_named Name s f (.string x) out
      (by rwa [EvalCheck_not_struct _ _ _ _ _ (by simp [GoValue.Kind])] at h)
  | .other t, Name, s, f, out => fun h =>
    EvalCheck_field_named Name s f (.other t) out
      (by rwa [EvalCheck_not_struct _ _ _ _ _
        (by cases t <;> simp [GoValue.Kind, OtherType.Kind])] at h)
  | .seq k e, Name, s, f, out => fun h =>
    EvalCheck_field_named Name s f (.seq k e) out
      (by rwa [EvalCheck_not_struct _ _ _ _ _
        (by cases k <;> simp [GoValue.Kind, SeqKind.Kind])] at h)
/-- Every violation of a record is named with the qualified name of one of
    the record's fields, followed by an element index, a dotted path, or
    nothing. -/
theorem Execute_loop_named : ∀ (fields : List (StructField × GoValue)) (f : flag)
    (ParentName : String) (out : ValidationErrors),
    Execute.loop f ParentName fields [] = .ok out →
    ∀ e ∈ out, ∃ sv ∈ fields, ∃ rest : String,
      e.Name = NewFieldCheck.Name ParentName sv.1 ++ rest
  | [], f, ParentName, out => fun h => by
    rw [Execute_loop_nil] at h
    simp only [Except.ok.injEq] at h
    subst h
    intro e he
    cases he
  | (s, v) :: more, f, ParentName, out => fun h => by
    rw [Execute_loop_cons] at h
    generalize hr : EvalCheck (NewFieldCheck.Name ParentName s) s (f.Field s) v [] = r at h
    cases r with
    | error q => cases h
    | ok out1 =>
      simp only [] at h
      rw [Execute_loop_append] at h
      generalize hr2 : Execute.loop f ParentName more [] = r2 at h
      cases r2 with
      | error q => cases h
      | ok out2 =>
        simp only [appendTo_ok, Except.ok.injEq] at h
        subst h
        intro e he
        rcases List.mem_append.1 he with h1 | h2
        · obtain ⟨rest, hrest⟩ := EvalCheck_named v _ s (f.Field s) out1 hr e h1
          exact ⟨(s, v), List.mem_cons_self _ _, rest, hrest⟩
        · obtain ⟨sv, hsv, rest, hrest⟩ := Execute_loop_named more f ParentName out2 hr2 e h2
          exact ⟨sv, List.mem_cons_of_mem _ hsv, rest, hrest⟩
end

/-! ## Nested records and annotations that do not parse -/

/-- C7: a nested record field is descended into whatever its annotation (the
    result does not depend on the field's metadata): `EvalCheck` appends
    exactly the violations that the validator
    `InitValidator(c.RefValue, c.Name)` of the nested value returns, and none
    when it returns nil. Each of them is named with the qualified name of the
    nested field, ".", the name of a field of the nested record, and then
    whatever that field adds (a deeper dotted path or an element index).
    `{Inner struct{X int "min:0"}}` with `Inner.X = -1` yields exactly one
    violation, named "Inner.X"; two levels down the name is "A.B.X". -/
theorem EvalCheck_nested_record (Name : String) (s : StructField) (f : flag)
    (fields : List (StructField × GoValue)) (Errors : ValidationErrors) :
    (EvalCheck Name s f (.struct fields) Errors =
      match (InitValidator (.reflectValue (.valid (.struct fields) f)) Name).Execute with
      | .error p => .error p
      | .ok none => .ok Errors
      | .ok (some errs) => .ok (Errors ++ errs)) ∧
    (∀ s2 : StructField,
      EvalCheck Name s2 f (.struct fields) Errors = EvalCheck Name s f (.struct fields) Errors) ∧
    (∀ errs,
      (InitValidator (.reflectValue (.valid (.struct fields) f)) Name).Execute =
        .ok (some errs) →
      Name ≠ "" →
      ∀ e ∈ errs, ∃ sv ∈ fields, ∃ rest : String,
        e.Name = Name ++ "." ++ sv.1.Name ++ rest) ∧
    Validate (.value (.struct [(⟨"Inner", "", none, false⟩,
        .struct [(⟨"X", "", some "min:0", false⟩, .int (-1))])])) =
      .ok (some [⟨"Inner.X", .Errorf "value -1 is less than 0"⟩]) ∧
    Validate (.value (.struct [(⟨"A", "", none, false⟩,
        .struct [(⟨"B", "", some "len:3", false⟩,
          .struct [(⟨"X", "", some "min:0", false⟩, .int (-1))])])])) =
      .ok (some [⟨"A.B.X", .Errorf "value -1 is less than 0"⟩]) := by
  have hexec : (InitValidator (.reflectValue (.valid (.struct fields) f)) Name).Execute =
      match Execute.loop f Name fields [] with
      | .error p => .error p
      | .ok errs => if errs.length > 0 then .ok (some errs) else .ok none := rfl
  refine ⟨?_, ?_, ?_, by decide, by decide⟩
  · rw [EvalCheck_struct, hexec]
    generalize Execute.loop f Name fields [] = r
    cases r with
    | error p => rfl
    | ok errs =>
      by_cases hl : errs.length > 0
      · simp [hl, ValidationErrors.AddCustomError]
      · simp [hl]
  · intro s2
    rw [EvalCheck_struct, EvalCheck_struct]
  · intro errs h hn e he
    rw [hexec] at h
    generalize hr : Execute.loop f Name fields [] = r at h
    cases r with
    | error p => cases h
    | ok out =>
      by_cases hl : out.length > 0
      · simp only [hl, if_true, Except.ok.injEq, Option.some.injEq] at h
        subst h
        obtain ⟨sv, hsv, rest, hrest⟩ := Execute_loop_named fields f Name out hr e he
        refine ⟨sv, hsv, rest, ?_⟩
        rw [hrest]
        simp [NewFieldCheck.Name, hn]
      · simp [hl] at h

/-- C8: an exported field whose kind (the element kind, for a collection
    that is not empty) is `Int` or `String` and whose annotation does not parse
    gets exactly one violation, under its qualified name (no element index),
    with the parser's error as cause; no rule is evaluated, whatever the value.
    The empty annotation gives `ErrEmptyValidator`. In a record, the fields
    around it contribute what they contribute without it. -/
theorem EvalCheck_annotation_parse_error (Name : String) (s : StructField) (f : flag)
    (v : GoValue) (Errors : ValidationErrors) (vtag : String) (kt : Kind) (err : GoErr)
    (ht : s.Tag = some vtag) (hs : s.IsExported = true)
    (hkt : EvalCheck.kt v = some kt) (hk : kt = Kind.int ∨ kt = Kind.string)
    (hp : ParseTag vtag kt = .error err) :
    EvalCheck Name s f v Errors = .ok (Errors ++ [⟨Name, err⟩]) ∧
    ParseTag "" kt = .error GoErr.ErrEmptyValidator ∧
    (vtag = "" → err = GoErr.ErrEmptyValidator) ∧
    (∀ (g : flag) (ParentName : String) (pre post : List (StructField × GoValue))
      (e1 e2 : ValidationErrors),
      Execute.loop g ParentName pre [] = .ok e1 →
      Execute.loop g ParentName post [] = .ok e2 →
      Execute.loop g ParentName (pre ++ post) [] = .ok (e1 ++ e2) ∧
      Execute.loop g ParentName (pre ++ (s, v) :: post) [] =
        .ok (e1 ++ [⟨NewFieldCheck.Name ParentName s, err⟩] ++ e2)) := by
  refine ⟨EvalCheck_parse_error Name s f v Errors vtag kt err ht hs hkt hk hp, rfl, ?_, ?_⟩
  · intro hv
    subst hv
    simp only [ParseTag, if_true, Except.error.injEq] at hp
    exact hp.symm
  · intro g ParentName pre post e1 e2 h1 h2
    constructor
    · rw [Execute_loop_fields_append, h1]
      simp only []
      rw [Execute_loop_append, h2, appendTo_ok]
    · rw [Execute_loop_fields_append, h1]
      simp only []
      rw [Execute_loop_cons,
        EvalCheck_parse_error _ s (g.Field s) v e1 vtag kt err ht hs hkt hk hp]
      simp only []
      rw [Execute_loop_append, h2, appendTo_ok]

theorem EvalCheck_annotation_parse_error_witness :
    ((⟨"Ages", "", some "min:18;max", false⟩ : StructField).Tag = some "min:18;max" ∧
      StructField.IsExported ⟨"Ages", "", some "min:18;max", false⟩ = true ∧
      EvalCheck.kt (.seq .slice (.ints [3, 70])) = some Kind.int ∧
      (Kind.int = Kind.int ∨ Kind.int = Kind.string) ∧
      ParseTag "min:18;max" Kind.int = .error GoErr.ErrInvalidValidatorSyntax) ∧
    (EvalCheck "Ages" ⟨"Ages", "", some "min:18;max", false⟩ ⟨false, false⟩
        (.seq .slice (.ints [3, 70])) [] =
      .ok ([] ++ [⟨"Ages", GoErr.ErrInvalidValidatorSyntax⟩]) ∧
    ParseTag "" Kind.int = .error GoErr.ErrEmptyValidator ∧
    ("min:18;max" = "" → GoErr.ErrInvalidValidatorSyntax = GoErr.ErrEmptyValidator) ∧
    (∀ (g : flag) (ParentName : String) (pre post : List (StructField × GoValue))
      (e1 e2 : ValidationErrors),
      Execute.loop g ParentName pre [] = .ok e1 →
      Execute.loop g ParentName post [] = .ok e2 →
      Execute.loop g ParentName (pre ++ post) [] = .ok (e1 ++ e2) ∧
      Execute.loop g ParentName
          (pre ++ (⟨"Ages", "", some "min:18;max", false⟩, .seq .slice (.ints [3, 70])) :: post)
          [] =
        .ok (e1 ++ [⟨NewFieldCheck.Name ParentName ⟨"Ages", "", some "min:18;max", false⟩,
          GoErr.ErrInvalidValidatorSyntax⟩] ++ e2))) :=
  ⟨by decide,
    EvalCheck_annotation_parse_error "Ages" ⟨"Ages", "", some "min:18;max", false⟩
      ⟨false, false⟩ (.seq .slice (.ints [3, 70])) [] "min:18;max" Kind.int
      GoErr.ErrInvalidValidatorSyntax (by decide) (by decide) (by decide) (by decide)
      (by decide)⟩

/-! ## The integer bounds and the membership check -/

/-- C11: `CheckInt` with the single rule `min b` returns no cause iff
    `v ≥ b`, and with the single rule `max b` iff `v ≤ b`: the one-sided checks
    `ValidateRange(v, b, v)` and `ValidateRange(v, v, b)` ask for nothing else.
    When the bound is not met, exactly one cause is returned. -/
theorem CheckInt_min_max (v b : Int) :
    (ValidateRange v b v = true ↔ v ≥ b) ∧
    (ValidateRange v v b = true ↔ v ≤ b) ∧
    (CheckInt [⟨"min", .int b⟩] v = .ok [] ↔ v ≥ b) ∧
    (CheckInt [⟨"max", .int b⟩] v = .ok [] ↔ v ≤ b) ∧
    (¬ v ≥ b → CheckInt [⟨"min", .int b⟩] v =
      .ok [.Errorf ("value " ++ fmtInt v ++ " is less than " ++ fmtInt b)]) ∧
    (¬ v ≤ b → CheckInt [⟨"max", .int b⟩] v =
      .ok [.Errorf ("value " ++ fmtInt v ++ " is bigger than " ++ fmtInt b)]) := by
  refine ⟨?_, ?_, ?_, ?_, ?_, ?_⟩
  · simp [ValidateRange_iff]
  · simp [ValidateRange_iff]
  · by_cases h : b ≤ v
    · simp [CheckInt, CheckInt.loop, CheckInt.rule, ValidateRange, h]
    · simp [CheckInt, CheckInt.loop, CheckInt.rule, ValidateRange, h]
  · by_cases h : v ≤ b
    · simp [CheckInt, CheckInt.loop, CheckInt.rule, ValidateRange, h]
    · simp [CheckInt, CheckInt.loop, CheckInt.rule, ValidateRange, h]
  · intro h
    have h2 : ¬ b ≤ v := h
    simp [CheckInt, CheckInt.loop, CheckInt.rule, ValidateRange, h2]
  · intro h
    simp [CheckInt, CheckInt.loop, CheckInt.rule, ValidateRange, h]

theorem ValidateIn_iff_mem {T : Type} [DecidableEq T] (v : T) (ins : List T) :
    ValidateIn v ins = true ↔ v ∈ ins := by
  induction ins with
  | nil => simp [ValidateIn]
  | cons x rest ih =>
    by_cases h : v = x
    · simp [ValidateIn, h]
    · simp [ValidateIn, h, ih]

/-- C12: `ValidateIn(v, ins)` is true iff `v` is an element of `ins`, for text
    and for integers; so an `in` rule gives no cause iff the value occurs in
    its set, and one cause when it is absent; nothing is in the empty set.
    With `in:a,b,c`, "d" gives one violation and "b" none. -/
theorem ValidateIn_membership (s : String) (strs : List String) (i : Int) (ints : List Int) :
    (ValidateIn s strs = true ↔ s ∈ strs) ∧
    (ValidateIn i ints = true ↔ i ∈ ints) ∧
    ValidateIn s [] = false ∧ ValidateIn i [] = false ∧
    (CheckString [⟨"in", .strings strs⟩] s = .ok [] ↔ s ∈ strs) ∧
    (CheckInt [⟨"in", .ints ints⟩] i = .ok [] ↔ i ∈ ints) ∧
    (s ∉ strs → CheckString [⟨"in", .strings strs⟩] s =
      .ok [.Errorf ("string value is not contains in " ++ fmtSlice strs)]) ∧
    (i ∉ ints → CheckInt [⟨"in", .ints ints⟩] i =
      .ok [.Errorf ("value " ++ fmtInt i ++ " is not contains in " ++
        fmtSlice (ints.map fmtInt))]) ∧
    Validate (.value (.struct [(⟨"Tag", "", some "in:a,b,c", false⟩, .string "d")])) =
      .ok (some [⟨"Tag", .Errorf "string value is not contains in [a b c]"⟩]) ∧
    Validate (.value (.struct [(⟨"Tag", "", some "in:a,b,c", false⟩, .string "b")])) =
      .ok none := by
  have hs := ValidateIn_iff_mem s strs
  have hi := ValidateIn_iff_mem i ints
  refine ⟨hs, hi, rfl, rfl, ?_, ?_, ?_, ?_, by decide, by decide⟩
  · by_cases h : s ∈ strs
    · simp [CheckString, CheckString.loop, CheckString.rule, hs.2 h, h]
    · have : ValidateIn s strs = false := by simpa using fun hh => h (hs.1 hh)
      simp [CheckString, CheckString.loop, CheckString.rule, this, h]
  · by_cases h : i ∈ ints
    · simp [CheckInt, CheckInt.loop, CheckInt.rule, hi.2 h, h]
    · have : ValidateIn i ints = false := by simpa using fun hh => h (hi.1 hh)
      simp [CheckInt, CheckInt.loop, CheckInt.rule, this, h]
  · intro h
    have : ValidateIn s strs = false := by simpa using fun hh => h (hs.1 hh)
    simp [CheckString, CheckString.loop, CheckString.rule, this]
  · intro h
    have : ValidateIn i ints = false := by simpa using fun hh => h (hi.1 hh)
    simp [CheckInt, CheckInt.loop, CheckInt.rule, this]

/-! ## The integer literals of `min` and `max` -/

theorem parseDigits_eq (ds : List Char) (n : Nat) :
    parseDigits ds n =
      if ds.all Char.isDigit then
        some (ds.foldl (fun n c => n * 10 + (c.toNat - 48)) n)
      else none := by
  induction ds generalizing n with
  | nil => simp [parseDigits]
  | cons c cs ih =>
    by_cases hc : c.isDigit = true
    · simp [parseDigits, hc, ih]
    · simp [parseDigits, hc]

theorem intSize_pow : (2 : Int) ^ (intSize - 1) = 9223372036854775808 := by
  norm_num [intSize]

theorem intSize_pow_nat : (2 : Nat) ^ (intSize - 1) = 9223372036854775808 := by
  norm_num [intSize]

theorem parseDigits_zero (ds : List Char) :
    parseDigits ds 0 =
      if ds.all Char.isDigit = true then some (Spec.digitsValue ds) else none := by
  rw [parseDigits_eq]
  rfl

/-- The model of `strconv.Atoi` accepts exactly the signed decimal texts whose
    value is in the machine range, and returns that value. -/
theorem Atoi_eq_spec (s : String) :
    Atoi s =
      if Spec.isSignedDecimal s = true ∧ Spec.inIntRange (Spec.signedDecimalValue s) = true
      then some (Spec.signedDecimalValue s) else none := by
  unfold Atoi Spec.isSignedDecimal Spec.signedDecimalValue Spec.inIntRange
  cases hd : s.data with
  | nil => simp
  | cons c cs =>
    simp only []
    by_cases hm : c = '-'
    · subst hm
      cases cs with
      | nil => simp
      | cons d ds =>
        simp only [parseDigits_zero, intSize_pow, intSize_pow_nat, true_or, or_true, if_true,
          decide_True, List.isEmpty_cons, Bool.not_false, Bool.true_and]
        generalize Spec.digitsValue (d :: ds) = N
        generalize (d :: ds).all Char.isDigit = b
        cases b with
        | false => simp
        | true =>
          by_cases hN : N ≤ 9223372036854775808
          · have h2 : -(9223372036854775808 : Int) ≤ -(N : Int) ∧
                -(N : Int) < 9223372036854775808 := by omega
            simp [hN, h2]
          · have h2 : ¬ (-(9223372036854775808 : Int) ≤ -(N : Int) ∧
                -(N : Int) < 9223372036854775808) := by omega
            simp [hN, h2]
    · by_cases hp : c = '+'
      · subst hp
        cases cs with
        | nil => simp
        | cons d ds =>
          simp only [parseDigits_zero, intSize_pow, intSize_pow_nat, true_or, or_true, if_true,
            hm, if_false, decide_False, List.isEmpty_cons, Bool.not_false, Bool.true_and]
          generalize Spec.digitsValue (d :: ds) = N
          generalize (d :: ds).all Char.isDigit = b
          cases b with
          | false => simp
          | true =>
            by_cases hN : N < 9223372036854775808
            · have h2 : -(9223372036854775808 : Int) ≤ (N : Int) ∧
                  (N : Int) < 9223372036854775808 := by omega
              simp [hN, h2]
            · have h2 : ¬ (-(9223372036854775808 : Int) ≤ (N : Int) ∧
                  (N : Int) < 9223372036854775808) := by omega
              simp [hN, h2]
      · simp only [hm, hp, or_self, if_false, decide_False, parseDigits_zero, intSize_pow,
          intSize_pow_nat]
        generalize Spec.digitsValue (c :: cs) = N
        generalize (c :: cs).all Char.isDigit = b
        cases b with
        | false => simp
        | true =>
          by_cases hN : N < 9223372036854775808
          · have h2 : -(9223372036854775808 : Int) ≤ (N : Int) ∧
                (N : Int) < 9223372036854775808 := by omega
            simp [hN, h2]
          · have h2 : ¬ (-(9223372036854775808 : Int) ≤ (N : Int) ∧
                (N : Int) < 9223372036854775808) := by omega
            simp [hN, h2]

theorem Atoi_eq_some_iff (s : String) (n : Int) :
    Atoi s = some n ↔ Spec.parsesAsInt s n := by
  rw [Atoi_eq_spec]
  unfold Spec.parsesAsInt
  by_cases h : Spec.isSignedDecimal s = true ∧
      Spec.inIntRange (Spec.signedDecimalValue s) = true
  · simp only [h, and_self, if_true, Option.some.injEq, true_and]
    constructor
    · intro hn
      subst hn
      exact ⟨rfl, h.2⟩
    · intro hn
      exact hn.1
  · simp only [h, if_false]
    constructor
    · intro hn
      cases hn
    · intro hn
      exact absurd ⟨hn.1, by rw [hn.2.1]; exact hn.2.2⟩ h

theorem Atoi_eq_none_iff (s : String) :
    Atoi s = none ↔ ¬ ∃ n, Spec.parsesAsInt s n := by
  constructor
  · intro h hex
    obtain ⟨n, hn⟩ := hex
    rw [(Atoi_eq_some_iff s n).2 hn] at h
    cases h
  · intro h
    cases ha : Atoi s with
    | none => rfl
    | some n => exact absurd ⟨n, (Atoi_eq_some_iff s n).1 ha⟩ h

/-- C13: for a `min` or `max` clause, on a field of any kind (text and
    integer alike), `Init` succeeds iff the raw value is an optionally signed
    decimal integer in the machine range, and it then stores that integer; for
    every other raw value it fails with `ErrInvalidValidatorSyntax`. -/
theorem Init_min_max (Typ sval : String) (t : Kind) (hT : Typ = "min" ∨ Typ = "max") :
    checkType.Init Typ sval t =
      (if Spec.isSignedDecimal sval = true ∧
          Spec.inIntRange (Spec.signedDecimalValue sval) = true
       then .ok ⟨Typ, .int (Spec.signedDecimalValue sval)⟩
       else .error GoErr.ErrInvalidValidatorSyntax) ∧
    (∀ n, checkType.Init Typ sval t = .ok ⟨Typ, .int n⟩ ↔ Spec.parsesAsInt sval n) ∧
    (∀ ct, checkType.Init Typ sval t = .ok ct →
      ∃ n, ct = ⟨Typ, .int n⟩ ∧ Spec.parsesAsInt sval n) ∧
    (checkType.Init Typ sval t = .error GoErr.ErrInvalidValidatorSyntax ↔
      ¬ ∃ n, Spec.parsesAsInt sval n) ∧
    (∀ err, checkType.Init Typ sval t = .error err → err = GoErr.ErrInvalidValidatorSyntax) := by
  have hlen : Typ ≠ "len" := by
    rcases hT with h | h <;> subst h <;> decide
  have hI : checkType.Init Typ sval t =
      match Atoi sval with
      | none => .error GoErr.ErrInvalidValidatorSyntax
      | some val => .ok ⟨Typ, .int val⟩ := by
    simp only [checkType.Init, hlen, if_false, hT, if_true]
  refine ⟨?_, ?_, ?_, ?_, ?_⟩
  · rw [hI, Atoi_eq_spec]
    by_cases h : Spec.isSignedDecimal sval = true ∧
        Spec.inIntRange (Spec.signedDecimalValue sval) = true
    · simp only [h, and_self, if_true]
    · simp only [h, if_false]
  · intro n
    rw [hI, ← Atoi_eq_some_iff]
    cases Atoi sval with
    | none => simp
    | some m => simp
  · intro ct hct
    rw [hI] at hct
    cases ha : Atoi sval with
    | none => rw [ha] at hct; cases hct
    | some m =>
      rw [ha] at hct
      simp only [Except.ok.injEq] at hct
      exact ⟨m, hct.symm, (Atoi_eq_some_iff sval m).1 ha⟩
  · rw [hI, ← Atoi_eq_none_iff]
    cases Atoi sval with
    | none => simp
    | some m => simp
  · intro err herr
    rw [hI] at herr
    cases ha : Atoi sval with
    | none =>
      rw [ha] at herr
      simp only [Except.error.injEq] at herr
      exact herr.symm
    | some m => rw [ha] at herr; cases herr

theorem Init_min_max_witness :
    ("max" = "min" ∨ "max" = "max") ∧
    (checkType.Init "max" "-12" Kind.string =
      (if Spec.isSignedDecimal "-12" = true ∧
          Spec.inIntRange (Spec.signedDecimalValue "-12") = true
       then .ok ⟨"max", .int (Spec.signedDecimalValue "-12")⟩
       else .error GoErr.ErrInvalidValidatorSyntax) ∧
    (∀ n, checkType.Init "max" "-12" Kind.string = .ok ⟨"max", .int n⟩ ↔
      Spec.parsesAsInt "-12" n) ∧
    (∀ ct, checkType.Init "max" "-12" Kind.string = .ok ct →
      ∃ n, ct = ⟨"max", .int n⟩ ∧ Spec.parsesAsInt "-12" n) ∧
    (checkType.Init "max" "-12" Kind.string = .error GoErr.ErrInvalidValidatorSyntax ↔
      ¬ ∃ n, Spec.parsesAsInt "-12" n) ∧
    (∀ err, checkType.Init "max" "-12" Kind.string = .error err →
      err = GoErr.ErrInvalidValidatorSyntax)) :=
  ⟨by decide, Init_min_max "max" "-12" Kind.string (by decide)⟩

/-! ## The sets of `in` -/

theorem splitOn_ne_nil (sep : Char) (l : List Char) : splitOn sep l ≠ [] := by
  cases l with
  | nil => simp [splitOn]
  | cons c cs =>
    by_cases h : c = sep
    · simp [splitOn, h]
    · simp only [splitOn, h, if_false]
      cases splitOn sep cs <;> simp

/-- The segments, put together again with the separator between them, are the
    text that was split. -/
theorem splitOn_intercalate (sep : Char) (l : List Char) :
    List.intercalate [sep] (splitOn sep l) = l := by
  induction l with
  | nil => simp [splitOn, List.intercalate]
  | cons c cs ih =>
    have hne := splitOn_ne_nil sep cs
    by_cases h : c = sep
    · simp only [splitOn, h, if_true]
      cases hs : splitOn sep cs with
      | nil => exact absurd hs hne
      | cons a t =>
        rw [hs] at ih
        simp only [List.intercalate, List.intersperse] at ih ⊢
        rw [← ih]
        simp [List.flatten_cons]
    · simp only [splitOn, h, if_false]
      cases hs : splitOn sep cs with
      | nil => exact absurd hs hne
      | cons a t =>
        rw [hs] at ih
        cases t with
        | nil =>
          simp only [List.intercalate, List.intersperse] at ih ⊢
          rw [← ih]
          simp [List.flatten_cons]
        | cons b t2 =>
          simp only [List.intercalate, List.intersperse] at ih ⊢
          rw [← ih]
          simp [List.flatten_cons]

/-- No segment contains the separator. -/
theorem splitOn_no_sep (sep : Char) (l : List Char) :
    ∀ seg ∈ splitOn sep l, sep ∉ seg := by
  induction l with
  | nil => simp [splitOn]
  | cons c cs ih =>
    by_cases h : c = sep
    · simp only [splitOn, h, if_true]
      intro seg hseg
      rcases List.mem_cons.1 hseg with h1 | h1
      · subst h1; simp
      · exact ih seg h1
    · simp only [splitOn, h, if_false]
      cases hs : splitOn sep cs with
      | nil => simp [Ne.symm h]
      | cons a t =>
        rw [hs] at ih
        intro seg hseg
        rcases List.mem_cons.1 hseg with h1 | h1
        · subst h1
          intro hmem
          rcases List.mem_cons.1 hmem with h2 | h2
          · exact h h2.symm
          · exact ih a (List.mem_cons_self _ _) h2
        · exact ih seg (List.mem_cons_of_mem _ h1)

theorem Split_data (s : String) (sep : Char) :
    (Split s sep).map String.data = splitOn sep s.data := by
  simp [Split, Function.comp_def]

theorem Init_inints_eq_some (l : List String) (is : List Int) :
    Init.inints l = some is ↔ List.Forall₂ (fun seg i => Atoi seg = some i) l is := by
  induction l generalizing is with
  | nil =>
    cases is with
    | nil => simp [Init.inints]
    | cons i rest => simp [Init.inints]
  | cons v rest ih =>
    simp only [Init.inints]
    cases ha : Atoi v with
    | none =>
      simp only []
      constructor
      · intro h; cases h
      · intro h
        cases h with
        | cons h1 _ => rw [ha] at h1; cases h1
    | some i =>
      simp only []
      cases hr : Init.inints rest with
      | none =>
        simp only []
        constructor
        · intro h; cases h
        · intro h
          cases h with
          | cons h1 h2 => rw [(ih _).2 h2] at hr; cases hr
      | some js =>
        simp only [Option.some.injEq]
        constructor
        · intro h
          subst h
          exact List.Forall₂.cons ha ((ih js).1 hr)
        · intro h
          cases h with
          | cons h1 h2 =>
            rw [ha] at h1
            simp only [Option.some.injEq] at h1
            subst h1
            have := (ih _).2 h2
            rw [hr] at this
            simp only [Option.some.injEq] at this
            rw [this]

theorem Init_inints_eq_none (l : List String) :
    Init.inints l = none ↔ ∃ seg ∈ l, Atoi seg = none := by
  induction l with
  | nil => simp [Init.inints]
  | cons v rest ih =>
    simp only [Init.inints]
    cases ha : Atoi v with
    | none => simp [ha]
    | some i =>
      simp only []
      cases hr : Init.inints rest with
      | none =>
        simp only [true_iff]
        obtain ⟨seg, hseg, hnone⟩ := ih.1 hr
        exact ⟨seg, List.mem_cons_of_mem _ hseg, hnone⟩
      | some js =>
        simp only []
        constructor
        · intro h; cases h
        · intro hex
          obtain ⟨seg, hseg, hnone⟩ := hex
          rcases List.mem_cons.1 hseg with h1 | h1
          · subst h1; rw [ha] at hnone; cases hnone
          · rw [ih.2 ⟨seg, h1, hnone⟩] at hr; cases hr

theorem Split_length_ne_zero (s : String) (sep : Char) : (Split s sep).length ≠ 0 := by
  have h := splitOn_ne_nil sep s.data
  simp only [Split, List.length_map, ne_eq, List.length_eq_zero]
  exact h

theorem Init_in_int (sval : String) (hne : sval ≠ "") :
    checkType.Init "in" sval Kind.int =
      match Init.inints (Split sval ',') with
      | none => .error GoErr.ErrInvalidValidatorSyntax
      | some inints => .ok ⟨"in", .ints inints⟩ := by
  have h0 := Split_length_ne_zero sval ','
  simp [checkType.Init, hne, h0]

theorem Init_in_string (sval : String) (hne : sval ≠ "") :
    checkType.Init "in" sval Kind.string = .ok ⟨"in", .strings (Split sval ',')⟩ := by
  have h0 := Split_length_ne_zero sval ','
  simp [checkType.Init, hne, h0]

/-- C14: for an `in` clause with a raw value that is not empty: on a text
    field `Init` succeeds and its set is the list of the segments of the raw
    value between the commas, verbatim and in order (put together again with
    commas they are the raw value, and none contains a comma); on an integer
    field it succeeds iff every segment parses as an integer, its set then
    being these integers in order, and fails with `ErrInvalidValidatorSyntax`
    otherwise. The empty raw value fails with `ErrInvalidValidatorSyntax`, in
    `Init` and in `ParseTag`. -/
theorem Init_in (sval : String) (hne : sval ≠ "") :
    checkType.Init "in" sval Kind.string = .ok ⟨"in", .strings (Split sval ',')⟩ ∧
    List.intercalate [','] ((Split sval ',').map String.data) = sval.data ∧
    (∀ seg ∈ Split sval ',', ',' ∉ seg.data) ∧
    (∀ is, checkType.Init "in" sval Kind.int = .ok ⟨"in", .ints is⟩ ↔
      List.Forall₂ (fun seg i => Spec.parsesAsInt seg i) (Split sval ',') is) ∧
    ((∃ ct, checkType.Init "in" sval Kind.int = .ok ct) ↔
      ∀ seg ∈ Split sval ',', ∃ i, Spec.parsesAsInt seg i) ∧
    (checkType.Init "in" sval Kind.int = .error GoErr.ErrInvalidValidatorSyntax ↔
      ∃ seg ∈ Split sval ',', ¬ ∃ i, Spec.parsesAsInt seg i) ∧
    (∀ err, checkType.Init "in" sval Kind.int = .error err →
      err = GoErr.ErrInvalidValidatorSyntax) ∧
    (∀ t, checkType.Init "in" "" t = .error GoErr.ErrInvalidValidatorSyntax) ∧
    (∀ t, ParseTag "in:" t = .error GoErr.ErrInvalidValidatorSyntax) := by
  have hI := Init_in_int sval hne
  refine ⟨Init_in_string sval hne, ?_, ?_, ?_, ?_, ?_, ?_, ?_, ?_⟩
  · rw [Split_data]
    exact splitOn_intercalate ',' sval.data
  · intro seg hseg
    have hmem : seg.data ∈ (Split sval ',').map String.data := List.mem_map_of_mem _ hseg
    rw [Split_data] at hmem
    exact splitOn_no_sep ',' sval.data seg.data hmem
  · intro is
    rw [hI]
    have hiff : List.Forall₂ (fun seg i => Spec.parsesAsInt seg i) (Split sval ',') is ↔
        List.Forall₂ (fun seg i => Atoi seg = some i) (Split sval ',') is :=
      ⟨List.Forall₂.imp (fun a b h => (Atoi_eq_some_iff a b).2 h),
        List.Forall₂.imp (fun a b h => (Atoi_eq_some_iff a b).1 h)⟩
    rw [hiff, ← Init_inints_eq_some]
    cases Init.inints (Split sval ',') with
    | none => simp
    | some js => simp
  · rw [hI]
    cases hr : Init.inints (Split sval ',') with
    | none =>
      obtain ⟨seg, hseg, hnone⟩ := (Init_inints_eq_none _).1 hr
      constructor
      · intro h
        obtain ⟨ct, hct⟩ := h
        cases hct
      · intro h
        obtain ⟨i, hi⟩ := h seg hseg
        rw [(Atoi_eq_some_iff seg i).2 hi] at hnone
        cases hnone
    | some js =>
      constructor
      · intro _ seg hseg
        cases ha : Atoi seg with
        | none =>
          rw [(Init_inints_eq_none _).2 ⟨seg, hseg, ha⟩] at hr
          cases hr
        | some i => exact ⟨i, (Atoi_eq_some_iff seg i).1 ha⟩
      · intro _
        exact ⟨_, rfl⟩
  · rw [hI]
    cases hr : Init.inints (Split sval ',') with
    | none =>
      obtain ⟨seg, hseg, hnone⟩ := (Init_inints_eq_none _).1 hr
      simp only [true_iff]
      exact ⟨seg, hseg, (Atoi_eq_none_iff seg).1 hnone⟩
    | some js =>
      constructor
      · intro h; cases h
      · intro h
        obtain ⟨seg, hseg, hno⟩ := h
        rw [(Init_inints_eq_none _).2 ⟨seg, hseg, (Atoi_eq_none_iff seg).2 hno⟩] at hr
        cases hr
  · intro err herr
    rw [hI] at herr
    cases hr : Init.inints (Split sval ',') with
    | none =>
      rw [hr] at herr
      simp only [Except.error.injEq] at herr
      exact herr.symm
    | some js => rw [hr] at herr; cases herr
  · intro t
    simp [checkType.Init]
  · intro t
    rfl

theorem Init_in_witness :
    "1,-2,+3" ≠ "" ∧
    (checkType.Init "in" "1,-2,+3" Kind.string =
      .ok ⟨"in", .strings (Split "1,-2,+3" ',')⟩ ∧
    List.intercalate [','] ((Split "1,-2,+3" ',').map String.data) = "1,-2,+3".data ∧
    (∀ seg ∈ Split "1,-2,+3" ',', ',' ∉ seg.data) ∧
    (∀ is, checkType.Init "in" "1,-2,+3" Kind.int = .ok ⟨"in", .ints is⟩ ↔
      List.Forall₂ (fun seg i => Spec.parsesAsInt seg i) (Split "1,-2,+3" ',') is) ∧
    ((∃ ct, checkType.Init "in" "1,-2,+3" Kind.int = .ok ct) ↔
      ∀ seg ∈ Split "1,-2,+3" ',', ∃ i, Spec.parsesAsInt seg i) ∧
    (checkType.Init "in" "1,-2,+3" Kind.int = .error GoErr.ErrInvalidValidatorSyntax ↔
      ∃ seg ∈ Split "1,-2,+3" ',', ¬ ∃ i, Spec.parsesAsInt seg i) ∧
    (∀ err, checkType.Init "in" "1,-2,+3" Kind.int = .error err →
      err = GoErr.ErrInvalidValidatorSyntax) ∧
    (∀ t, checkType.Init "in" "" t = .error GoErr.ErrInvalidValidatorSyntax) ∧
    (∀ t, ParseTag "in:" t = .error GoErr.ErrInvalidValidatorSyntax)) :=
  ⟨by decide, Init_in "1,-2,+3" (by decide)⟩

/-! ## Unknown constraint kinds -/

/-- C15: a clause whose key is none of "len", "min", "max", "in" makes `Init`
    fail with `ErrInvalidValidatorType`, whatever the value and the kind of
    the field; this error is neither `ErrInvalidValidatorSyntax` nor
    `ErrUnsupportedValidatorType`; and `ParseTag` returns it for such a clause
    with a key and a value that are not empty, when the clauses before it
    parse. -/
theorem Init_unknown_type (Typ sval : String) (t : Kind)
    (h : Typ ≠ "len" ∧ Typ ≠ "min" ∧ Typ ≠ "max" ∧ Typ ≠ "in") :
    checkType.Init Typ sval t = .error GoErr.ErrInvalidValidatorType ∧
    GoErr.ErrInvalidValidatorType ≠ GoErr.ErrInvalidValidatorSyntax ∧
    GoErr.ErrInvalidValidatorType ≠ GoErr.ErrUnsupportedValidatorType ∧
    (∀ (tag : String) (vt : Kind) (pre post : List String) (clause : String)
      (more : List String) (cts : checkTypes),
      tag ≠ "" → Split tag ';' = pre ++ clause :: post →
      ParseTag.loop vt pre [] = .ok cts →
      Split clause ':' = Typ :: sval :: more → Typ ≠ "" → sval ≠ "" →
      ParseTag tag vt = .error GoErr.ErrInvalidValidatorType) := by
  obtain ⟨h1, h2, h3, h4⟩ := h
  have hI : ∀ k : Kind, checkType.Init Typ sval k = .error GoErr.ErrInvalidValidatorType := by
    intro k
    simp [checkType.Init, h1, h2, h3, h4]
  refine ⟨hI t, by decide, by decide, ?_⟩
  intro tag vt pre post clause more cts htag hsplit hpre hclause hk hv
  have hrun : ParseTag tag vt = ParseTag.loop vt (clause :: post) cts := by
    simp only [ParseTag, htag, if_false, hsplit]
    rw [ParseTag_loop_append, hpre]
  rw [hrun, ParseTag_loop_wellformed vt clause post cts Typ sval more hclause hk hv, hI vt]

theorem Init_unknown_type_witness :
    ("regex" ≠ "len" ∧ "regex" ≠ "min" ∧ "regex" ≠ "max" ∧ "regex" ≠ "in") ∧
    (checkType.Init "regex" "a+" Kind.string = .error GoErr.ErrInvalidValidatorType ∧
    GoErr.ErrInvalidValidatorType ≠ GoErr.ErrInvalidValidatorSyntax ∧
    GoErr.ErrInvalidValidatorType ≠ GoErr.ErrUnsupportedValidatorType ∧
    (∀ (tag : String) (vt : Kind) (pre post : List String) (clause : String)
      (more : List String) (cts : checkTypes),
      tag ≠ "" → Split tag ';' = pre ++ clause :: post →
      ParseTag.loop vt pre [] = .ok cts →
      Split clause ':' = "regex" :: "a+" :: more → "regex" ≠ "" → "a+" ≠ "" →
      ParseTag tag vt = .error GoErr.ErrInvalidValidatorType)) :=
  ⟨by decide, Init_unknown_type "regex" "a+" Kind.string (by decide)⟩

/-! ## The rendering of the violations -/

theorem ErrorLoop_eq_go (l : List ValidationError) (i : Nat) (es : String) :
    ValidationErrors.ErrorLoop l (i + 1) es =
      String.intercalate.go es "\n" (l.map ValidationError.Error) := by
  induction l generalizing i es with
  | nil => simp [ValidationErrors.ErrorLoop, String.intercalate.go]
  | cons e rest ih =>
    simp only [ValidationErrors.ErrorLoop, List.map_cons, String.intercalate.go]
    rw [ih (i + 1)]
    simp

theorem ErrorLoop_acc (l : List ValidationError) (i : Nat) (es : String) :
    ValidationErrors.ErrorLoop l (i + 1) es = es ++ ValidationErrors.ErrorLoop l 1 "" := by
  induction l generalizing i es with
  | nil => simp [ValidationErrors.ErrorLoop]
  | cons e rest ih =>
    simp only [ValidationErrors.ErrorLoop]
    rw [ih (i + 1), ih 1 (_ ++ e.Error)]
    simp [String.append_assoc]

/-- C16: the text of a violation list is the texts of its violations joined
    by one "\n" each, with none before the first or after the last: the empty
    list gives the empty text, a single violation its own text, and a longer
    list the text of its first violation, "\n", and the text of the rest. A
    violation renders as "Field <name>, error: <cause text>". -/
theorem ValidationErrors_Error_join (errs : ValidationErrors) (e e2 : ValidationError) :
    errs.Error = "\n".intercalate (errs.map ValidationError.Error) ∧
    ValidationErrors.Error [] = "" ∧
    ValidationErrors.Error [e] = e.Error ∧
    ValidationErrors.Error (e :: e2 :: errs) =
      e.Error ++ "\n" ++ ValidationErrors.Error (e2 :: errs) ∧
    e.Error = "Field " ++ e.Name ++ ", error: " ++ e.Err.Error ∧
    ValidationErrors.Error
        [⟨"Name", .ErrEmptyValidator⟩, ⟨"Inner.X", .Errorf "value -1 is less than 0"⟩] =
      "Field Name, error: validator tag is empty\nField Inner.X, error: value -1 is less than 0"
    := by
  have hcons : ∀ (x : ValidationError) (l : ValidationErrors),
      ValidationErrors.Error (x :: l) = x.Error ++ ValidationErrors.ErrorLoop l 1 "" := by
    intro x l
    simp only [ValidationErrors.Error, ValidationErrors.ErrorLoop]
    rw [ErrorLoop_acc l 0]
    simp
  refine ⟨?_, rfl, ?_, ?_, rfl, by decide⟩
  · cases errs with
    | nil => rfl
    | cons x l =>
      simp only [ValidationErrors.Error, ValidationErrors.ErrorLoop, List.map_cons,
        String.intercalate]
      rw [ErrorLoop_eq_go l 0]
      simp
  · rw [hcons]
    simp [ValidationErrors.ErrorLoop]
  · rw [hcons, hcons]
    simp only [ValidationErrors.ErrorLoop]
    rw [ErrorLoop_acc errs 1]
    simp [String.append_assoc]

/-! ## Parsed rule sets are type-correct -/

theorem Init_typeCorrect (Typ sval : String) (kt : Kind) (ct : checkType)
    (h : checkType.Init Typ sval kt = .ok ct) :
    ct.Typ = Typ ∧ Spec.typeCorrect kt ct = true := by
  unfold checkType.Init at h
  by_cases h1 : Typ = "len"
  · simp only [h1, if_true] at h
    by_cases hk : kt = Kind.string
    · simp only [hk, ne_eq, not_true_eq_false, if_false] at h
      cases ha : Atoi sval with
      | none => rw [ha] at h; cases h
      | some n =>
        rw [ha] at h
        simp only [Except.ok.injEq] at h
        subst h
        simp [Spec.typeCorrect, hk, h1]
    · simp only [ne_eq, hk, not_false_eq_true, if_true] at h
      cases h
  · simp only [h1, if_false] at h
    by_cases h2 : Typ = "min" ∨ Typ = "max"
    · simp only [h2, if_true] at h
      cases ha : Atoi sval with
      | none => rw [ha] at h; cases h
      | some n =>
        rw [ha] at h
        simp only [Except.ok.injEq] at h
        subst h
        by_cases hk : kt = Kind.string
        · simp [Spec.typeCorrect, hk, h2]
        · simp [Spec.typeCorrect, hk, h2]
    · simp only [h2, if_false] at h
      by_cases h3 : Typ = "in"
      · simp only [h3, if_true] at h
        by_cases h4 : sval = "" ∨ (Split sval ',').length = 0
        · simp only [h4, if_true] at h
          cases h
        · simp only [h4, if_false] at h
          by_cases hk : kt = Kind.string
          · simp only [hk, if_true, Except.ok.injEq] at h
            subst h
            simp [Spec.typeCorrect, hk, h3]
          · simp only [hk, if_false] at h
            cases hr : Init.inints (Split sval ',') with
            | none => rw [hr] at h; cases h
            | some js =>
              rw [hr] at h
              simp only [Except.ok.injEq] at h
              subst h
              simp [Spec.typeCorrect, hk, h3]
      · simp only [h3, if_false] at h
        cases h

/-- What a successful run of the loop of `ParseTag` appends: one rule per
    clause, in order, each made by `Init` from the first two parts of its
    clause. -/
theorem ParseTag_loop_rules (vt : Kind) (clauses : List String) (cts0 cts : checkTypes)
    (h : ParseTag.loop vt clauses cts0 = .ok cts) :
    ∃ rules : checkTypes, cts = cts0 ++ rules ∧
      List.Forall₂ (fun clause ct => ∃ key value more,
        Split clause ':' = key :: value :: more ∧ key ≠ "" ∧ value ≠ "" ∧
        checkType.Init key value vt = .ok ct) clauses rules := by
  induction clauses generalizing cts0 with
  | nil =>
    simp only [ParseTag.loop, Except.ok.injEq] at h
    exact ⟨[], by simp [h], List.Forall₂.nil⟩
  | cons clause rest ih =>
    simp only [ParseTag.loop] at h
    split at h
    · rename_i tp0 tp1 more heq
      by_cases he : tp0 = "" ∨ tp1 = ""
      · simp only [he, if_true] at h
        cases h
      · simp only [he, if_false] at h
        cases hI : checkType.Init tp0 tp1 vt with
        | error err => rw [hI] at h; cases h
        | ok ct =>
          rw [hI] at h
          obtain ⟨rules, hr1, hr2⟩ := ih (cts0 ++ [ct]) h
          refine ⟨ct :: rules, by simp [hr1], List.Forall₂.cons ?_ hr2⟩
          exact ⟨tp0, tp1, more, heq, fun h0 => he (Or.inl h0), fun h0 => he (Or.inr h0), hI⟩
    · cases h

theorem ParseTag_rules (t : String) (vt : Kind) (cts : checkTypes)
    (h : ParseTag t vt = .ok cts) :
    List.Forall₂ (fun clause ct => ∃ key value more,
      Split clause ':' = key :: value :: more ∧ key ≠ "" ∧ value ≠ "" ∧
      checkType.Init key value vt = .ok ct) (Split t ';') cts := by
  unfold ParseTag at h
  by_cases ht : t = ""
  · simp only [ht, if_true] at h
    cases h
  · simp only [ht, if_false] at h
    obtain ⟨rules, hr1, hr2⟩ := ParseTag_loop_rules vt _ [] cts h
    simp only [List.nil_append] at hr1
    subst hr1
    exact hr2

theorem ParseTag_typeCorrect (t : String) (vt : Kind) (cts : checkTypes)
    (h : ParseTag t vt = .ok cts) : ∀ ct ∈ cts, Spec.typeCorrect vt ct = true := by
  have hr := ParseTag_rules t vt cts h
  clear h
  generalize Split t ';' = clauses at hr
  induction hr with
  | nil => intro ct hct; cases hct
  | cons hhead _ ih =>
    intro ct hct
    rcases List.mem_cons.1 hct with h1 | h1
    · subst h1
      obtain ⟨key, value, more, _, _, _, hI⟩ := hhead
      exact (Init_typeCorrect key value vt _ hI).2
    · exact ih ct h1

/-! ## One cause per rule that fails -/

theorem CheckString_rule_typeCorrect (s : String) (ct : checkType)
    (h : Spec.typeCorrect Kind.string ct = true) :
    ∃ r : Option GoErr, CheckString.rule s ct = .ok r ∧
      (r = none ↔ Spec.passesText s ct = true) := by
  obtain ⟨Typ, Value⟩ := ct
  cases Value with
  | int c =>
    simp only [Spec.typeCorrect, if_true, decide_eq_true_eq] at h
    rcases h with h | h | h
    · subst h
      by_cases hv : runeCount s = c
      · exact ⟨none, by simp [CheckString.rule, ValidateLength, hv],
          by simp [Spec.passesText, hv]⟩
      · exact ⟨some _, by simp [CheckString.rule, ValidateLength, hv]; rfl,
          by simp [Spec.passesText, hv]⟩
    · subst h
      by_cases hv : c ≤ runeCount s
      · exact ⟨none, by simp [CheckString.rule, ValidateLengthRangeMin, ValidateRange, hv],
          by simp [Spec.passesText, hv]⟩
      · exact ⟨some _, by simp [CheckString.rule, ValidateLengthRangeMin, ValidateRange, hv]; rfl,
          by simp [Spec.passesText, hv]⟩
    · subst h
      by_cases hv : runeCount s ≤ c
      · exact ⟨none, by simp [CheckString.rule, ValidateLengthRangeMax, ValidateRange, hv],
          by simp [Spec.passesText, hv]⟩
      · exact ⟨some _, by simp [CheckString.rule, ValidateLengthRangeMax, ValidateRange, hv]; rfl,
          by simp [Spec.passesText, hv]⟩
  | strings ins =>
    simp only [Spec.typeCorrect, if_true, decide_eq_true_eq] at h
    subst h
    by_cases hv : s ∈ ins
    · exact ⟨none, by simp [CheckString.rule, (ValidateIn_iff_mem s ins).2 hv],
        by simp [Spec.passesText, hv]⟩
    · have hf : ValidateIn s ins = false := by
        simpa using fun hh => hv ((ValidateIn_iff_mem s ins).1 hh)
      exact ⟨some _, by simp [CheckString.rule, hf]; rfl, by simp [Spec.passesText, hv]⟩
  | ints js =>
    simp [Spec.typeCorrect] at h

theorem CheckInt_rule_typeCorrect (i : Int) (ct : checkType)
    (h : Spec.typeCorrect Kind.int ct = true) :
    ∃ r : Option GoErr, CheckInt.rule i ct = .ok r ∧
      (r = none ↔ Spec.passesInt i ct = true) := by
  obtain ⟨Typ, Value⟩ := ct
  have hk : ¬ (Kind.int = Kind.string) := by decide
  cases Value with
  | int c =>
    simp only [Spec.typeCorrect, hk, if_false, decide_eq_true_eq] at h
    rcases h with h | h
    · subst h
      by_cases hv : c ≤ i
      · exact ⟨none, by simp [CheckInt.rule, ValidateRange, hv],
          by simp [Spec.passesInt, hv]⟩
      · exact ⟨some _, by simp [CheckInt.rule, ValidateRange, hv]; rfl,
          by simp [Spec.passesInt, hv]⟩
    · subst h
      by_cases hv : i ≤ c
      · exact ⟨none, by simp [CheckInt.rule, ValidateRange, hv],
          by simp [Spec.passesInt, hv]⟩
      · exact ⟨some _, by simp [CheckInt.rule, ValidateRange, hv]; rfl,
          by simp [Spec.passesInt, hv]⟩
  | ints js =>
    simp only [Spec.typeCorrect, hk, if_false, decide_eq_true_eq] at h
    subst h
    by_cases hv : i ∈ js
    · exact ⟨none, by simp [CheckInt.rule, (ValidateIn_iff_mem i js).2 hv],
        by simp [Spec.passesInt, hv]⟩
    · have hf : ValidateIn i js = false := by
        simpa using fun hh => hv ((ValidateIn_iff_mem i js).1 hh)
      exact ⟨some _, by simp [CheckInt.rule, hf]; rfl, by simp [Spec.passesInt, hv]⟩
  | strings ins =>
    simp [Spec.typeCorrect] at h

theorem CheckString_loop_causes (s : String) (cts : checkTypes) (acc : List GoErr)
    (h : ∀ ct ∈ cts, Spec.typeCorrect Kind.string ct = true) :
    ∃ causes : List GoErr, CheckString.loop s cts acc = .ok (acc ++ causes) ∧
      List.Forall₂ (fun ct e => CheckString.rule s ct = .ok (some e))
        (cts.filter (fun ct => !Spec.passesText s ct)) causes := by
  induction cts generalizing acc with
  | nil => exact ⟨[], by simp [CheckString.loop], by simp⟩
  | cons ct rest ih =>
    obtain ⟨r, hr, hpass⟩ := CheckString_rule_typeCorrect s ct (h ct (List.mem_cons_self _ _))
    have hrest : ∀ x ∈ rest, Spec.typeCorrect Kind.string x = true :=
      fun x hx => h x (List.mem_cons_of_mem _ hx)
    cases r with
    | none =>
      have hp : Spec.passesText s ct = true := hpass.1 rfl
      obtain ⟨causes, hc1, hc2⟩ := ih acc hrest
      refine ⟨causes, ?_, ?_⟩
      · simp only [CheckString.loop, hr]
        exact hc1
      · simpa [List.filter, hp] using hc2
    | some e =>
      have hp : Spec.passesText s ct = false := by
        cases hq : Spec.passesText s ct with
        | false => rfl
        | true => exact absurd (hpass.2 hq) (by simp)
      obtain ⟨causes, hc1, hc2⟩ := ih (acc ++ [e]) hrest
      refine ⟨e :: causes, ?_, ?_⟩
      · simp only [CheckString.loop, hr]
        rw [hc1]
        simp
      · simp only [List.filter, hp, Bool.not_false]
        exact List.Forall₂.cons hr hc2

theorem CheckInt_loop_causes (i : Int) (cts : checkTypes) (acc : List GoErr)
    (h : ∀ ct ∈ cts, Spec.typeCorrect Kind.int ct = true) :
    ∃ causes : List GoErr, CheckInt.loop i cts acc = .ok (acc ++ causes) ∧
      List.Forall₂ (fun ct e => CheckInt.rule i ct = .ok (some e))
        (cts.filter (fun ct => !Spec.passesInt i ct)) causes := by
  induction cts generalizing acc with
  | nil => exact ⟨[], by simp [CheckInt.loop], by simp⟩
  | cons ct rest ih =>
    obtain ⟨r, hr, hpass⟩ := CheckInt_rule_typeCorrect i ct (h ct (List.mem_cons_self _ _))
    have hrest : ∀ x ∈ rest, Spec.typeCorrect Kind.int x = true :=
      fun x hx => h x (List.mem_cons_of_mem _ hx)
    cases r with
    | none =>
      have hp : Spec.passesInt i ct = true := hpass.1 rfl
      obtain ⟨causes, hc1, hc2⟩ := ih acc hrest
      refine ⟨causes, ?_, ?_⟩
      · simp only [CheckInt.loop, hr]
        exact hc1
      · simpa [List.filter, hp] using hc2
    | some e =>
      have hp : Spec.passesInt i ct = false := by
        cases hq : Spec.passesInt i ct with
        | false => rfl
        | true => exact absurd (hpass.2 hq) (by simp)
      obtain ⟨causes, hc1, hc2⟩ := ih (acc ++ [e]) hrest
      refine ⟨e :: causes, ?_, ?_⟩
      · simp only [CheckInt.loop, hr]
        rw [hc1]
        simp
      · simp only [List.filter, hp, Bool.not_false]
        exact List.Forall₂.cons hr hc2

/-- C18: with a rule set parsed for a text field (for an integer field),
    `CheckString` (`CheckInt`) returns, for every value, one cause for each
    rule the value fails and none for a rule it passes, in the order of the
    rules: the causes are as many as the failing rules, at most as many as the
    rules, and the i-th cause is the one the i-th failing rule gives. With
    "min:18;max:65", 70 gives one cause and 30 none. -/
theorem Check_one_cause_per_failing_rule :
    (∀ (t : String) (cts : checkTypes) (s : String), ParseTag t Kind.string = .ok cts →
      ∃ causes : List GoErr, CheckString cts s = .ok causes ∧
        causes.length = (cts.filter (fun ct => !Spec.passesText s ct)).length ∧
        causes.length ≤ cts.length ∧
        List.Forall₂ (fun ct e => CheckString.rule s ct = .ok (some e))
          (cts.filter (fun ct => !Spec.passesText s ct)) causes ∧
        (∀ ct ∈ cts, Spec.passesText s ct = true → CheckString.rule s ct = .ok none)) ∧
    (∀ (t : String) (cts : checkTypes) (i : Int), ParseTag t Kind.int = .ok cts →
      ∃ causes : List GoErr, CheckInt cts i = .ok causes ∧
        causes.length = (cts.filter (fun ct => !Spec.passesInt i ct)).length ∧
        causes.length ≤ cts.length ∧
        List.Forall₂ (fun ct e => CheckInt.rule i ct = .ok (some e))
          (cts.filter (fun ct => !Spec.passesInt i ct)) causes ∧
        (∀ ct ∈ cts, Spec.passesInt i ct = true → CheckInt.rule i ct = .ok none)) ∧
    ParseTag "min:18;max:65" Kind.int = .ok [⟨"min", .int 18⟩, ⟨"max", .int 65⟩] ∧
    CheckInt [⟨"min", .int 18⟩, ⟨"max", .int 65⟩] 70 =
      .ok [.Errorf "value 70 is bigger than 65"] ∧
    CheckInt [⟨"min", .int 18⟩, ⟨"max", .int 65⟩] 30 = .ok [] ∧
    Validate (.value (.struct [(⟨"Age", "", some "min:18;max:65", false⟩, .int 70)])) =
      .ok (some [⟨"Age", .Errorf "value 70 is bigger than 65"⟩]) ∧
    Validate (.value (.struct [(⟨"Age", "", some "min:18;max:65", false⟩, .int 30)])) =
      .ok none := by
  refine ⟨?_, ?_, by decide, by decide, by decide, by decide, by decide⟩
  · intro t cts s h
    have htc := ParseTag_typeCorrect t Kind.string cts h
    obtain ⟨causes, hc1, hc2⟩ := CheckString_loop_causes s cts [] htc
    refine ⟨causes, by simpa [CheckString] using hc1, hc2.length_eq.symm, ?_, hc2, ?_⟩
    · rw [← hc2.length_eq]
      exact List.length_filter_le _ _
    · intro ct hct hp
      obtain ⟨r, hr, hpass⟩ := CheckString_rule_typeCorrect s ct (htc ct hct)
      rw [hr, hpass.2 hp]
  · intro t cts i h
    have htc := ParseTag_typeCorrect t Kind.int cts h
    obtain ⟨causes, hc1, hc2⟩ := CheckInt_loop_causes i cts [] htc
    refine ⟨causes, by simpa [CheckInt] using hc1, hc2.length_eq.symm, ?_, hc2, ?_⟩
    · rw [← hc2.length_eq]
      exact List.length_filter_le _ _
    · intro ct hct hp
      obtain ⟨r, hr, hpass⟩ := CheckInt_rule_typeCorrect i ct (htc ct hct)
      rw [hr, hpass.2 hp]

/-- C20: when `ParseTag` succeeds for the kind `Int` or `String`, the rule
    set has one rule per clause, in the order of the clauses, each made from
    the key and the value of its clause, and it is type-correct for the kind:
    for a text field every `len`, `min` or `max` rule holds an integer and every
    `in` rule a list of text; for an integer field there is no `len` rule (a
    `len` clause fails with `ErrUnsupportedValidatorType`), every `min` or `max`
    rule holds an integer and every `in` rule a list of integers. So the type
    assertions on the rules cannot fail: `CheckString` and `CheckInt` return
    for every value. -/
theorem ParseTag_type_correct (t : String) (kt : Kind) (cts : checkTypes)
    (hk : kt = Kind.int ∨ kt = Kind.string) (h : ParseTag t kt = .ok cts) :
    cts.length = (Split t ';').length ∧
    List.Forall₂ (fun clause ct => ∃ key value more,
      Split clause ':' = key :: value :: more ∧ ct.Typ = key ∧
      checkType.Init key value kt = .ok ct) (Split t ';') cts ∧
    (∀ ct ∈ cts, Spec.typeCorrect kt ct = true) ∧
    (kt = Kind.string → ∀ ct ∈ cts,
      ((ct.Typ = "len" ∨ ct.Typ = "min" ∨ ct.Typ = "max") ∧ ∃ n, ct.Value = .int n) ∨
      (ct.Typ = "in" ∧ ∃ l, ct.Value = .strings l)) ∧
    (kt = Kind.int → ∀ ct ∈ cts, ct.Typ ≠ "len" ∧
      (((ct.Typ = "min" ∨ ct.Typ = "max") ∧ ∃ n, ct.Value = .int n) ∨
      (ct.Typ = "in" ∧ ∃ l, ct.Value = .ints l))) ∧
    (kt = Kind.string → ∀ s, ∃ causes, CheckString cts s = .ok causes) ∧
    (kt = Kind.int → ∀ i, ∃ causes, CheckInt cts i = .ok causes) ∧
    (∀ sval, checkType.Init "len" sval Kind.int = .error GoErr.ErrUnsupportedValidatorType)
    := by
  have hr := ParseTag_rules t kt cts h
  have htc := ParseTag_typeCorrect t kt cts h
  refine ⟨hr.length_eq.symm, ?_, htc, ?_, ?_, ?_, ?_, ?_⟩
  · refine List.Forall₂.imp ?_ hr
    intro clause ct hex
    obtain ⟨key, value, more, hs, _, _, hI⟩ := hex
    exact ⟨key, value, more, hs, (Init_typeCorrect key value kt ct hI).1, hI⟩
  · intro hs ct hct
    have := htc ct hct
    subst hs
    obtain ⟨Typ, Value⟩ := ct
    cases Value with
    | int c =>
      simp only [Spec.typeCorrect, if_true, decide_eq_true_eq] at this
      exact Or.inl ⟨this, c, rfl⟩
    | strings l =>
      simp only [Spec.typeCorrect, if_true, decide_eq_true_eq] at this
      exact Or.inr ⟨this, l, rfl⟩
    | ints l => simp [Spec.typeCorrect] at this
  · intro hi ct hct
    have := htc ct hct
    subst hi
    have hne : ¬ (Kind.int = Kind.string) := by decide
    obtain ⟨Typ, Value⟩ := ct
    cases Value with
    | int c =>
      simp only [Spec.typeCorrect, hne, if_false, decide_eq_true_eq] at this
      refine ⟨?_, Or.inl ⟨this, c, rfl⟩⟩
      rcases this with h1 | h1 <;> subst h1 <;> simp
    | ints l =>
      simp only [Spec.typeCorrect, hne, if_false, decide_eq_true_eq] at this
      refine ⟨?_, Or.inr ⟨this, l, rfl⟩⟩
      subst this
      simp
    | strings l => simp [Spec.typeCorrect] at this
  · intro hs s
    subst hs
    obtain ⟨causes, hc1, _⟩ := CheckString_loop_causes s cts [] htc
    exact ⟨causes, by simpa [CheckString] using hc1⟩
  · intro hi i
    subst hi
    obtain ⟨causes, hc1, _⟩ := CheckInt_loop_causes i cts [] htc
    exact ⟨causes, by simpa [CheckInt] using hc1⟩
  · intro sval
    simp [checkType.Init]

theorem ParseTag_type_correct_witness :
    ((Kind.string = Kind.int ∨ Kind.string = Kind.string) ∧
      ParseTag "len:3;in:a,b" Kind.string =
        .ok [⟨"len", .int 3⟩, ⟨"in", .strings ["a", "b"]⟩]) ∧
    ([⟨"len", .int 3⟩, ⟨"in", .strings ["a", "b"]⟩] : checkTypes).length =
      (Split "len:3;in:a,b" ';').length ∧
    List.Forall₂ (fun clause ct => ∃ key value more,
      Split clause ':' = key :: value :: more ∧ ct.Typ = key ∧
      checkType.Init key value Kind.string = .ok ct) (Split "len:3;in:a,b" ';')
      [⟨"len", .int 3⟩, ⟨"in", .strings ["a", "b"]⟩] ∧
    (∀ ct ∈ ([⟨"len", .int 3⟩, ⟨"in", .strings ["a", "b"]⟩] : checkTypes),
      Spec.typeCorrect Kind.string ct = true) ∧
    (Kind.string = Kind.string →
      ∀ ct ∈ ([⟨"len", .int 3⟩, ⟨"in", .strings ["a", "b"]⟩] : checkTypes),
      ((ct.Typ = "len" ∨ ct.Typ = "min" ∨ ct.Typ = "max") ∧ ∃ n, ct.Value = .int n) ∨
      (ct.Typ = "in" ∧ ∃ l, ct.Value = .strings l)) ∧
    (Kind.string = Kind.int →
      ∀ ct ∈ ([⟨"len", .int 3⟩, ⟨"in", .strings ["a", "b"]⟩] : checkTypes),
      ct.Typ ≠ "len" ∧
      (((ct.Typ = "min" ∨ ct.Typ = "max") ∧ ∃ n, ct.Value = .int n) ∨
      (ct.Typ = "in" ∧ ∃ l, ct.Value = .ints l))) ∧
    (Kind.string = Kind.string → ∀ s, ∃ causes,
      CheckString [⟨"len", .int 3⟩, ⟨"in", .strings ["a", "b"]⟩] s = .ok causes) ∧
    (Kind.string = Kind.int → ∀ i, ∃ causes,
      CheckInt [⟨"len", .int 3⟩, ⟨"in", .strings ["a", "b"]⟩] i = .ok causes) ∧
    (∀ sval, checkType.Init "len" sval Kind.int = .error GoErr.ErrUnsupportedValidatorType) :=
  ⟨⟨by decide, by decide⟩,
    ParseTag_type_correct "len:3;in:a,b" Kind.string
      [⟨"len", .int 3⟩, ⟨"in", .strings ["a", "b"]⟩] (by decide) (by decide)⟩

/-! ## The order of the violations of a record -/

theorem EvalCheck_struct_nil (Name : String) (s : StructField) (f : flag)
    (fields : List (StructField × GoValue)) :
    EvalCheck Name s f (.struct fields) [] = Execute.loop f Name fields [] := by
  rw [EvalCheck_struct]
  generalize Execute.loop f Name fields [] = r
  cases r with
  | error p => rfl
  | ok errs =>
    cases errs with
    | nil => rfl
    | cons e es => simp [ValidationErrors.AddCustomError]

theorem Execute_loop_of_contributions (f : flag) (ParentName : String)
    (fields : List (StructField × GoValue)) (cs : List ValidationErrors)
    (Errors : ValidationErrors)
    (h : List.Forall₂ (fun sv c =>
      EvalCheck (NewFieldCheck.Name ParentName sv.1) sv.1 (f.Field sv.1) sv.2 [] = .ok c)
      fields cs) :
    Execute.loop f ParentName fields Errors = .ok (Errors ++ cs.flatten) := by
  induction h generalizing Errors with
  | nil => simp [Execute_loop_nil]
  | @cons sv c rest cs2 hhead _ ih =>
    obtain ⟨s, v⟩ := sv
    rw [Execute_loop_cons, EvalCheck_append]
    have hhead2 : EvalCheck (NewFieldCheck.Name ParentName s) s (f.Field s) v [] = .ok c :=
      hhead
    rw [hhead2, appendTo_ok]
    show Execute.loop f ParentName rest (Errors ++ c) = _
    rw [ih (Errors ++ c)]
    simp

theorem Execute_loop_contributions (f : flag) (ParentName : String)
    (fields : List (StructField × GoValue)) (Errors out : ValidationErrors)
    (h : Execute.loop f ParentName fields Errors = .ok out) :
    ∃ cs : List ValidationErrors,
      List.Forall₂ (fun sv c =>
        EvalCheck (NewFieldCheck.Name ParentName sv.1) sv.1 (f.Field sv.1) sv.2 [] = .ok c)
        fields cs ∧ out = Errors ++ cs.flatten := by
  induction fields generalizing Errors with
  | nil =>
    rw [Execute_loop_nil] at h
    simp only [Except.ok.injEq] at h
    exact ⟨[], List.Forall₂.nil, by simp [h]⟩
  | cons sv rest ih =>
    obtain ⟨s, v⟩ := sv
    rw [Execute_loop_cons, EvalCheck_append] at h
    generalize hr : EvalCheck (NewFieldCheck.Name ParentName s) s (f.Field s) v [] = r at h
    cases r with
    | error p => rw [appendTo_error] at h; cases h
    | ok c =>
      rw [appendTo_ok] at h
      simp only [] at h
      obtain ⟨cs, hcs, hout⟩ := ih (Errors ++ c) h
      exact ⟨c :: cs, List.Forall₂.cons hr hcs, by simp [hout]⟩

theorem Execute_loop_panic (f : flag) (ParentName : String)
    (fields : List (StructField × GoValue)) (Errors : ValidationErrors) (p : Panic)
    (h : Execute.loop f ParentName fields Errors = .error p) :
    ∃ sv ∈ fields,
      EvalCheck (NewFieldCheck.Name ParentName sv.1) sv.1 (f.Field sv.1) sv.2 [] = .error p := by
  induction fields generalizing Errors with
  | nil => rw [Execute_loop_nil] at h; cases h
  | cons sv rest ih =>
    obtain ⟨s, v⟩ := sv
    rw [Execute_loop_cons, EvalCheck_append] at h
    generalize hr : EvalCheck (NewFieldCheck.Name ParentName s) s (f.Field s) v [] = r at h
    cases r with
    | error q =>
      rw [appendTo_error] at h
      simp only [Except.error.injEq] at h
      subst h
      exact ⟨(s, v), List.mem_cons_self _ _, hr⟩
    | ok c =>
      rw [appendTo_ok] at h
      simp only [] at h
      obtain ⟨sv, hsv, hp⟩ := ih (Errors ++ c) h
      exact ⟨sv, List.mem_cons_of_mem _ hsv, hp⟩

/-- C17: the violations `Execute` collects over a record are the given
    errors followed by the concatenation, in the order of the fields, of what
    each field contributes on its own (a nested record field contributing
    the whole result of its own traversal): if every field contributes a list,
    the loop returns their concatenation, and whenever the loop returns a list
    it is that concatenation, so nothing is reordered, dropped or duplicated;
    the loop panics only with the panic of one of the fields. What the fields
    of a beginning of the record contribute is a beginning of the result,
    whatever fields follow. `Execute` returns this list when it is not empty. -/
theorem Execute_loop_concat (f : flag) (ParentName : String)
    (fields : List (StructField × GoValue)) (Errors : ValidationErrors) :
    (∀ cs : List ValidationErrors,
      List.Forall₂ (fun sv c =>
        EvalCheck (NewFieldCheck.Name ParentName sv.1) sv.1 (f.Field sv.1) sv.2 [] = .ok c)
        fields cs →
      Execute.loop f ParentName fields Errors = .ok (Errors ++ cs.flatten)) ∧
    (∀ out, Execute.loop f ParentName fields Errors = .ok out →
      ∃ cs : List ValidationErrors,
        List.Forall₂ (fun sv c =>
          EvalCheck (NewFieldCheck.Name ParentName sv.1) sv.1 (f.Field sv.1) sv.2 [] = .ok c)
          fields cs ∧ out = Errors ++ cs.flatten) ∧
    (∀ p, Execute.loop f ParentName fields Errors = .error p →
      ∃ sv ∈ fields,
        EvalCheck (NewFieldCheck.Name ParentName sv.1) sv.1 (f.Field sv.1) sv.2 [] =
          .error p) ∧
    (∀ pre post out, fields = pre ++ post →
      Execute.loop f ParentName fields Errors = .ok out →
      ∃ o1 o2, Execute.loop f ParentName pre Errors = .ok o1 ∧
        Execute.loop f ParentName post [] = .ok o2 ∧ out = o1 ++ o2) ∧
    (∀ (Name : String) (s : StructField) (g : flag) (inner : List (StructField × GoValue)),
      EvalCheck Name s g (.struct inner) [] = Execute.loop g Name inner []) ∧
    structValidator.Execute ⟨.valid (.struct fields) f, ParentName, Errors⟩ =
      (match Execute.loop f ParentName fields Errors with
       | .error p => .error p
       | .ok errs => if errs.length > 0 then .ok (some errs) else .ok none) ∧
    Validate (.value (.struct [
        (⟨"Name", "", some "len:3", false⟩, .string "ab"),
        (⟨"Inner", "", none, false⟩, .struct [
          (⟨"X", "", some "min:0", false⟩, .int (-1)),
          (⟨"Ys", "", some "max:1", false⟩, .seq .slice (.ints [5, 0, 7]))]),
        (⟨"Age", "", some "min:18;in:1,2", false⟩, .int 3)])) =
      .ok (some [
        ⟨"Name", .Errorf "string length is not match - '3'"⟩,
        ⟨"Inner.X", .Errorf "value -1 is less than 0"⟩,
        ⟨"Inner.Ys[0]", .Errorf "value 5 is bigger than 1"⟩,
        ⟨"Inner.Ys[2]", .Errorf "value 7 is bigger than 1"⟩,
        ⟨"Age", .Errorf "value 3 is less than 18"⟩,
        ⟨"Age", .Errorf "value 3 is not contains in [1 2]"⟩]) := by
  refine ⟨fun cs h => Execute_loop_of_contributions f ParentName fields cs Errors h,
    fun out h => Execute_loop_contributions f ParentName fields Errors out h,
    fun p h => Execute_loop_panic f ParentName fields Errors p h, ?_,
    fun Name s g inner => EvalCheck_struct_nil Name s g inner, rfl, by decide⟩
  intro pre post out hf h
  subst hf
  rw [Execute_loop_fields_append] at h
  generalize hr : Execute.loop f ParentName pre Errors = r at h
  cases r with
  | error p => cases h
  | ok o1 =>
    simp only [] at h
    rw [Execute_loop_append] at h
    generalize hr2 : Execute.loop f ParentName post [] = r2 at h
    cases r2 with
    | error p => rw [appendTo_error] at h; cases h
    | ok o2 =>
      rw [appendTo_ok] at h
      simp only [Except.ok.injEq] at h
      exact ⟨o1, o2, rfl, rfl, h.symm⟩

/-! ## The evaluation of the elements and of a scalar -/

theorem Check_causes_ok (cts : checkTypes) (v : DynValue) (kt : Kind) (errs : List GoErr)
    (h : Check cts v kt = .ok errs) : Check.causes cts v kt = errs := by
  simp [Check.causes, h]

/-- The loop over the elements, when the elements can be read and `Check`
    returns for each of them: the causes of element `j`, for `j` in order, each
    under the name of the field followed by "[j]". -/
theorem EvalCheck_elems_ok (Name : String) (cts : checkTypes) (kt : Kind) (f : flag)
    (xs : List DynValue) (i : Nat) (Errors : ValidationErrors)
    (hf : f.ro = false) (hx : ∀ x ∈ xs, ∃ errs, Check cts x kt = .ok errs) :
    EvalCheck.elems Name cts kt f xs i Errors =
      .ok (Errors ++ ((xs.enumFrom i).map (fun p =>
        (Check.causes cts p.2 kt).map
          (fun e => (⟨Name ++ "[" ++ toString p.1 ++ "]", e⟩ : ValidationError)))).flatten) := by
  induction xs generalizing i Errors with
  | nil => simp [EvalCheck.elems]
  | cons x rest ih =>
    obtain ⟨errs, herrs⟩ := hx x (List.mem_cons_self _ _)
    have hrest : ∀ y ∈ rest, ∃ errs, Check cts y kt = .ok errs :=
      fun y hy => hx y (List.mem_cons_of_mem _ hy)
    have hI : Interface f.Index x = .ok x := by
      simp [Interface, flag.Index, flag.ro] at hf ⊢
      simp [hf]
    simp only [EvalCheck.elems, hI, herrs]
    rw [ih (i + 1) _ hrest]
    simp only [List.enumFrom_cons, List.map_cons, List.flatten_cons,
      Check_causes_ok cts x kt errs herrs]
    by_cases hl : errs.length > 0
    · simp [hl, AddError_eq]
    · have hnil : errs = [] := by
        cases errs with
        | nil => rfl
        | cons a l => simp at hl
      simp [hnil]

theorem Check_int_ok (cts : checkTypes) (x : Int)
    (h : ∀ ct ∈ cts, Spec.typeCorrect Kind.int ct = true) :
    ∃ errs, Check cts (.int x) Kind.int = .ok errs ∧ CheckInt cts x = .ok errs := by
  obtain ⟨causes, hc, _⟩ := CheckInt_loop_causes x cts [] h
  exact ⟨causes, by simpa [Check, CheckInt] using hc, by simpa [CheckInt] using hc⟩

theorem Check_string_ok (cts : checkTypes) (x : String)
    (h : ∀ ct ∈ cts, Spec.typeCorrect Kind.string ct = true) :
    ∃ errs, Check cts (.string x) Kind.string = .ok errs ∧ CheckString cts x = .ok errs := by
  obtain ⟨causes, hc, _⟩ := CheckString_loop_causes x cts [] h
  exact ⟨causes, by simpa [Check, CheckString] using hc, by simpa [CheckString] using hc⟩

/-- An exported field with an annotation that parses, whose value is read
    without the read-only flag and is of type `int` or `string` itself, or a
    collection of such that is not empty: every element is checked against the
    same rule set and its causes are named with the field's name and "[j]";
    the causes of a scalar are named with the field's name. -/
theorem EvalCheck_evaluates (Name : String) (s : StructField) (f : flag)
    (Errors : ValidationErrors) (vtag : String)
    (ht : s.Tag = some vtag) (hs : s.IsExported = true) (hf : f.ro = false) :
    (∀ (cts : checkTypes) (k : SeqKind) (xs : List Int),
      ParseTag vtag Kind.int = .ok cts → xs ≠ [] →
      EvalCheck Name s f (.seq k (.ints xs)) Errors =
        .ok (Errors ++ (xs.enum.map (fun p =>
          (Check.causes cts (.int p.2) Kind.int).map
            (fun e => (⟨Name ++ "[" ++ toString p.1 ++ "]", e⟩ : ValidationError)))).flatten) ∧
      ∀ x, CheckInt cts x = .ok (Check.causes cts (.int x) Kind.int)) ∧
    (∀ (cts : checkTypes) (k : SeqKind) (xs : List String),
      ParseTag vtag Kind.string = .ok cts → xs ≠ [] →
      EvalCheck Name s f (.seq k (.strings xs)) Errors =
        .ok (Errors ++ (xs.enum.map (fun p =>
          (Check.causes cts (.string p.2) Kind.string).map
            (fun e => (⟨Name ++ "[" ++ toString p.1 ++ "]", e⟩ : ValidationError)))).flatten) ∧
      ∀ x, CheckString cts x = .ok (Check.causes cts (.string x) Kind.string)) ∧
    (∀ (cts : checkTypes) (x : Int), ParseTag vtag Kind.int = .ok cts →
      EvalCheck Name s f (.int x) Errors =
        .ok (Errors ++ (Check.causes cts (.int x) Kind.int).map
          (fun e => (⟨Name, e⟩ : ValidationError)))) ∧
    (∀ (cts : checkTypes) (x : String), ParseTag vtag Kind.string = .ok cts →
      EvalCheck Name s f (.string x) Errors =
        .ok (Errors ++ (Check.causes cts (.string x) Kind.string).map
          (fun e => (⟨Name, e⟩ : ValidationError)))) := by
  have hIf : ∀ d : DynValue, Interface f d = .ok d := by
    intro d
    simp [Interface, hf]
  refine ⟨?_, ?_, ?_, ?_⟩
  · intro cts k xs hp hne
    have htc := ParseTag_typeCorrect vtag Kind.int cts hp
    have hlen : xs.length ≠ 0 := by
      cases xs with
      | nil => exact absurd rfl hne
      | cons a l => simp
    constructor
    · rw [EvalCheck_not_struct _ _ _ _ _ (by cases k <;> simp [GoValue.Kind, SeqKind.Kind])]
      unfold EvalCheck.field
      simp only [ht, hs, Bool.not_true, Bool.false_eq_true, if_false, EvalCheck.kt,
        Elems.Len, hlen, Elems.Kind, true_or, if_true, hp, EvalCheck.eval, Elems.Dyn]
      rw [EvalCheck_elems_ok Name cts Kind.int f _ 0 Errors hf]
      · simp [List.enum, List.enumFrom_map, Function.comp_def, List.map_map]
      · intro x hx
        obtain ⟨y, _, rfl⟩ := List.mem_map.1 hx
        obtain ⟨errs, he, _⟩ := Check_int_ok cts y htc
        exact ⟨errs, he⟩
    · intro x
      obtain ⟨errs, he, hc⟩ := Check_int_ok cts x htc
      rw [Check_causes_ok _ _ _ _ he, hc]
  · intro cts k xs hp hne
    have htc := ParseTag_typeCorrect vtag Kind.string cts hp
    have hlen : xs.length ≠ 0 := by
      cases xs with
      | nil => exact absurd rfl hne
      | cons a l => simp
    constructor
    · rw [EvalCheck_not_struct _ _ _ _ _ (by cases k <;> simp [GoValue.Kind, SeqKind.Kind])]
      unfold EvalCheck.field
      simp only [ht, hs, Bool.not_true, Bool.false_eq_true, if_false, EvalCheck.kt,
        Elems.Len, hlen, Elems.Kind, or_true, if_true, hp, EvalCheck.eval, Elems.Dyn]
      rw [EvalCheck_elems_ok Name cts Kind.string f _ 0 Errors hf]
      · simp [List.enum, List.enumFrom_map, Function.comp_def, List.map_map]
      · intro x hx
        obtain ⟨y, _, rfl⟩ := List.mem_map.1 hx
        obtain ⟨errs, he, _⟩ := Check_string_ok cts y htc
        exact ⟨errs, he⟩
    · intro x
      obtain ⟨errs, he, hc⟩ := Check_string_ok cts x htc
      rw [Check_causes_ok _ _ _ _ he, hc]
  · intro cts x hp
    have htc := ParseTag_typeCorrect vtag Kind.int cts hp
    obtain ⟨errs, he, _⟩ := Check_int_ok cts x htc
    rw [EvalCheck_not_struct _ _ _ _ _ (by simp [GoValue.Kind])]
    unfold EvalCheck.field
    simp only [ht, hs, Bool.not_true, Bool.false_eq_true, if_false, EvalCheck.kt,
      GoValue.Kind, true_or, if_true, hp, EvalCheck.eval, GoValue.Dyn, hIf, he,
      Check_causes_ok _ _ _ _ he]
    by_cases hl : errs.length > 0
    · simp [hl, AddError_eq]
    · have hnil : errs = [] := by
        cases errs with
        | nil => rfl
        | cons a l => simp at hl
      simp [hnil]
  · intro cts x hp
    have htc := ParseTag_typeCorrect vtag Kind.string cts hp
    obtain ⟨errs, he, _⟩ := Check_string_ok cts x htc
    rw [EvalCheck_not_struct _ _ _ _ _ (by simp [GoValue.Kind])]
    unfold EvalCheck.field
    simp only [ht, hs, Bool.not_true, Bool.false_eq_true, if_false, EvalCheck.kt,
      GoValue.Kind, or_true, if_true, hp, EvalCheck.eval, GoValue.Dyn, hIf, he,
      Check_causes_ok _ _ _ _ he]
    by_cases hl : errs.length > 0
    · simp [hl, AddError_eq]
    · have hnil : errs = [] := by
        cases errs with
        | nil => rfl
        | cons a l => simp at hl
      simp [hnil]

/-- C19: the evaluation of an exported field with a well-formed annotation,
    at inputs where it does not return. With `type Age int`, the elements of
    `Ages []Age` are of integer kind, yet `Check` asserts `v.(int)` on a value
    whose dynamic type is `Age` and panics, where the same elements of type
    `int` give the violation named "Ages[0]"; so does a scalar of a defined
    text type. And an exported collection field of a record that is itself an
    unexported field is reached read-only, so `Interface` panics before any
    element is checked. -/
theorem EvalCheck_defined_type_panics :
    (Elems.others (.other .definedInt) 2).Kind = Kind.int ∧
    StructField.IsExported ⟨"Ages", "", some "min:1", false⟩ = true ∧
    ParseTag "min:1" Kind.int = .ok [⟨"min", .int 1⟩] ∧
    EvalCheck "Ages" ⟨"Ages", "", some "min:1", false⟩ ⟨false, false⟩
        (.seq .slice (.ints [0, 5])) [] =
      .ok [⟨"Ages[0]", .Errorf "value 0 is less than 1"⟩] ∧
    EvalCheck "Ages" ⟨"Ages", "", some "min:1", false⟩ ⟨false, false⟩
        (.seq .slice (.others (.other .definedInt) 2)) [] =
      .error Panic.TypeAssertion ∧
    Validate (.value (.struct [(⟨"Ages", "", some "min:1", false⟩,
        .seq .slice (.others (.other .definedInt) 2))])) =
      .error Panic.TypeAssertion ∧
    EvalCheck "Name" ⟨"Name", "", some "len:3", false⟩ ⟨false, false⟩
        (.other .definedString) [] =
      .error Panic.TypeAssertion ∧
    Validate (.value (.struct [(⟨"inner", "main", none, false⟩,
        .struct [(⟨"Items", "", some "min:1", false⟩, .seq .slice (.ints [0, 5]))])])) =
      .error Panic.InterfaceOnReadOnly := by
  decide

end datavalidator
